import Mathlib

/-!
Shallow embedding of the bid evaluation and award endpoints of the
atems-tender-system backend (src/backend/app/api/v1/endpoints/evaluation.py),
together with the data model from src/backend/app/models.

Modelling conventions:
* Python Decimal / float values are modelled as exact rationals.  The code
  converts between float and Decimal with value-preserving conversions
  (Decimal(str(x))), so exact arithmetic is the intended reading.
* SQLAlchemy rows are Lean structures; a query result is the sub-list of the
  state list selected by the filter, in list order (the database returning
  rows in primary-key order is a hypothesis of the theorems that need it).
* ORM object mutation is modelled by rebuilding lists; object identity is
  tracked by the primary-key `id` (theorems assume ids are duplicate-free,
  which the database enforces with primary keys).
* HTTPException raised before db.commit aborts the request with no state
  change, so an endpoint is a function into Except ApiError (state, response).
* Response-only string fields (label, status text, bidder/company names,
  remarks, the criterion-name keyed score map and timestamps) are omitted:
  no claim mentions them.
* Python stable sort (Timsort) is modelled by a stable insertion sort over a
  Bool comparator; for `sorted(..., key=k)` the comparator is k a ≤ k b, and
  for `sorted(..., key=k, reverse=True)` it is k b ≤ k a, which is the
  documented semantics of reverse=True (descending, equal keys keep input
  order).
-/

namespace Atems

/-- BidStatus enum from app/models/bid.py. -/
inductive BidStatus
  | draft | submitted | underReview | qualified | disqualified
  | shortlisted | awarded | rejected | withdrawn
deriving DecidableEq

/-- TenderStatus enum from app/models/tender.py. -/
inductive TenderStatus
  | draft | published | underEvaluation | evaluated | awarded | cancelled | closed
deriving DecidableEq

/-- EvaluationType enum from app/models/evaluation.py (L2 has no branch in
calculate_evaluation, matching the source if/elif chain). -/
inductive EvaluationType
  | L1 | L2 | T1 | QCBS
deriving DecidableEq

/-- Bid row (app/models/bid.py), restricted to the fields the evaluation
endpoints read or write.  All score/rank fields default to NULL (none). -/
structure Bid where
  id : Nat
  tender_id : Nat
  status : BidStatus
  financial_amount : Option ℚ := none
  technical_score : Option ℚ := none
  financial_score : Option ℚ := none
  combined_score : Option ℚ := none
  rank : Option Nat := none
  is_qualified : Option Bool := none
deriving DecidableEq

/-- Tender row (app/models/tender.py), restricted to the fields used here. -/
structure Tender where
  id : Nat
  status : TenderStatus
deriving DecidableEq

/-- Evaluation row (app/models/evaluation.py): one evaluator's score for one
criterion of one bid.  `weight` stands for the joined e.criteria.weight. -/
structure Evaluation where
  bid_id : Nat
  score : ℚ
  weight : ℚ
deriving DecidableEq

/-- Database state shared by the endpoints.  The Evaluation table is passed
separately to the endpoints that read it, since none of them writes it. -/
structure St where
  tenders : List Tender
  bids : List Bid
deriving DecidableEq

/-- Error taxonomy: HTTPException status codes raised by the endpoints. -/
inductive ApiError
  | notFound    -- 404
  | badRequest  -- 400
deriving DecidableEq

/-- Boolean test for a successful endpoint response. -/
def exceptOk {ε α : Type} : Except ε α → Bool
  | .ok _ => true
  | .error _ => false

instance {ε α : Type} [DecidableEq ε] [DecidableEq α] : DecidableEq (Except ε α)
  | .ok a, .ok b =>
    if h : a = b then isTrue (by rw [h]) else isFalse (by intro c; cases c; exact h rfl)
  | .ok _, .error _ => isFalse (by intro c; cases c)
  | .error _, .ok _ => isFalse (by intro c; cases c)
  | .error e, .error f =>
    if h : e = f then isTrue (by rw [h]) else isFalse (by intro c; cases c; exact h rfl)

/-! ### Stable sort (model of Python sorted) -/

/-- Insert `x` into `l` before the first element `y` with `le x y`. -/
def insertBy {α : Type} (le : α → α → Bool) (x : α) : List α → List α
  | [] => [x]
  | y :: ys => if le x y then x :: y :: ys else y :: insertBy le x ys

/-- Stable insertion sort: equal-comparing elements keep their input order,
exactly as Python sorted guarantees. -/
def stableSort {α : Type} (le : α → α → Bool) : List α → List α
  | [] => []
  | x :: xs => insertBy le x (stableSort le xs)

/-! ### calculate_evaluation (evaluation.py lines 220-337) -/

/-- Rows of `db.query(Evaluation).filter(Evaluation.bid_id == bid.id)`. -/
def evalsFor (evals : List Evaluation) (bid_id : Nat) : List Evaluation :=
  evals.filter (fun e => decide (e.bid_id = bid_id))

/-- total_score = sum(float(e.score) * float(e.criteria.weight) for e in evaluations). -/
def totalScore (es : List Evaluation) : ℚ :=
  (es.map (fun e => e.score * e.weight)).sum

/-- Score-aggregation loop body (lines 250-257): when the bid has at least one
Evaluation row, write technical_score and is_qualified (threshold 60);
otherwise the bid is left untouched. -/
def scoreBid (evals : List Evaluation) (b : Bid) : Bid :=
  if (evalsFor evals b.id).isEmpty then b
  else
    { b with technical_score := some (totalScore (evalsFor evals b.id)),
             is_qualified := some (decide (60 ≤ totalScore (evalsFor evals b.id))) }

/-- Python truthiness of `b.financial_amount` (a NULL or zero Decimal is falsy). -/
def famountTruthy (b : Bid) : Bool :=
  match b.financial_amount with
  | some a => decide (a ≠ 0)
  | none => false

/-- Candidate filter `b.is_qualified and b.financial_amount` (lines 264, 297). -/
def isCandidate (b : Bid) : Bool :=
  decide (b.is_qualified = some true) && famountTruthy b

/-- Sort key `float(x.financial_amount or 0)` (line 265). -/
def keyL1 (b : Bid) : ℚ := b.financial_amount.getD 0

/-- Sort key `float(x.technical_score or 0)` (line 281). -/
def keyT1 (b : Bid) : ℚ := b.technical_score.getD 0

/-- Sort key `float(x.combined_score or 0)` (line 311). -/
def keyQCBS (b : Bid) : ℚ := b.combined_score.getD 0

/-- min_amount = min(float(b.financial_amount) for b in qualified_bids)
(line 301); the model mirrors Python min as a left fold over a non-empty
list (the empty case is unreachable behind the `if qualified_bids:` guard). -/
def minAmount : List Bid → ℚ
  | [] => 0
  | b :: bs => bs.foldl (fun m x => min m (keyL1 x)) (keyL1 b)

/-- QCBS per-candidate scoring (lines 302-309): financial_score =
(min_amount / amount) * 100 and combined_score = technical*w_t + financial*w_f.
The two source loops are fused: the second loop reads the financial_score the
first loop just wrote, which is the value computed here. -/
def qcbsScore (tw fw mn : ℚ) (b : Bid) : Bid :=
  { b with
      financial_score := some (mn / b.financial_amount.getD 0 * 100)
      combined_score := some (b.technical_score.getD 0 * tw +
        mn / b.financial_amount.getD 0 * 100 * fw) }

/-- Rank-assignment of one method branch (lines 262-325): filter the
candidate set, sort by the method key, and write rank = 1-based position onto
each sorted candidate.  Returns the mutated candidate objects in ranked
order; bids not in the returned list were not touched by the branch.
The L2 member has no if/elif branch in the source, so it ranks nothing. -/
def rankUpdates (etype : EvaluationType) (tw fw : ℚ) (bids : List Bid) : List Bid :=
  match etype with
  | .L1 =>
    let qualified := bids.filter isCandidate
    let sorted := stableSort (fun a b => decide (keyL1 a ≤ keyL1 b)) qualified
    (List.enumFrom 1 sorted).map (fun p => { p.2 with rank := some p.1 })
  | .T1 =>
    let sorted := stableSort (fun a b => decide (keyT1 b ≤ keyT1 a)) bids
    (List.enumFrom 1 sorted).map (fun p => { p.2 with rank := some p.1 })
  | .QCBS =>
    let qualified := bids.filter isCandidate
    if qualified.isEmpty then []
    else
      let mn := minAmount qualified
      let scored := qualified.map (qcbsScore tw fw mn)
      let sorted := stableSort (fun a b => decide (keyQCBS b ≤ keyQCBS a)) scored
      (List.enumFrom 1 sorted).map (fun p => { p.2 with rank := some p.1 })
  | .L2 => []

/-- BidRanking response item (schemas), without its string fields. -/
structure BidRanking where
  rank : Nat
  bid_id : Nat
  technical_score : Option ℚ
  financial_amount : Option ℚ
  financial_score : Option ℚ := none
  combined_score : Option ℚ := none
deriving DecidableEq

/-- BidRanking built in the branch loops from the just-ranked bid; the
financial/combined fields are only populated by the QCBS branch. -/
def toRanking (etype : EvaluationType) (b : Bid) : BidRanking :=
  { rank := b.rank.getD 0
    bid_id := b.id
    technical_score := b.technical_score
    financial_amount := b.financial_amount
    financial_score := if etype = .QCBS then b.financial_score else none
    combined_score := if etype = .QCBS then b.combined_score else none }

/-- EvaluationResultResponse (lines 329-337), without the string fields. -/
structure EvalResult where
  total_bids : Nat
  qualified_bids : Nat
  disqualified_bids : Nat
  rankings : List BidRanking
deriving DecidableEq

/-- Predicate of the submitted-bids query (lines 238-241). -/
def isSubmittedOf (tender_id : Nat) (b : Bid) : Bool :=
  decide (b.tender_id = tender_id ∧ b.status = BidStatus.submitted)

/-- Result list of the submitted-bids query (lines 238-241). -/
def submittedBids (s : St) (tender_id : Nat) : List Bid :=
  s.bids.filter (isSubmittedOf tender_id)

/-- Submitted bids after the score-aggregation loop (lines 250-257). -/
def scoredBids (evals : List Evaluation) (s : St) (tender_id : Nat) : List Bid :=
  (submittedBids s tender_id).map (scoreBid evals)

/-- The bid objects mutated by the selected method branch, in ranked order. -/
def rankedBids (etype : EvaluationType) (tw fw : ℚ) (evals : List Evaluation)
    (s : St) (tender_id : Nat) : List Bid :=
  rankUpdates etype tw fw (scoredBids evals s tender_id)

/-- In-place object mutation rendered functionally: a bid object picks up the
branch mutation addressed to its primary key, if any. -/
def applyRanked (ranked : List Bid) (b : Bid) : Bid :=
  match ranked.find? (fun r => decide (r.id = b.id)) with
  | some r => r
  | none => b

/-- The bids table after db.commit (line 327): each submitted bid of the
tender carries its score-loop mutation and, when ranked, its branch mutation;
every other row is untouched. -/
def newBidsAfterCalc (etype : EvaluationType) (tw fw : ℚ) (evals : List Evaluation)
    (s : St) (tender_id : Nat) : List Bid :=
  s.bids.map (fun b =>
    if isSubmittedOf tender_id b then
      applyRanked (rankedBids etype tw fw evals s tender_id) (scoreBid evals b)
    else b)

/-- EvaluationResultResponse of a successful run (lines 329-337); the
qualified/disqualified counts read the bid objects after the score loop. -/
def calcResult (etype : EvaluationType) (tw fw : ℚ) (evals : List Evaluation)
    (s : St) (tender_id : Nat) : EvalResult :=
  { total_bids := (submittedBids s tender_id).length
    qualified_bids := ((scoredBids evals s tender_id).filter
      (fun b => decide (b.is_qualified = some true))).length
    disqualified_bids := ((scoredBids evals s tender_id).filter
      (fun b => decide (¬ b.is_qualified = some true))).length
    rankings := (rankedBids etype tw fw evals s tender_id).map (toRanking etype) }

/-- Endpoint POST /tender/tender_id/calculate/evaluation_type
(calculate_evaluation, lines 220-337).  technical_weight and financial_weight
are the caller-supplied query parameters (FastAPI validates 0 ≤ w ≤ 1).
There is no tender-status check in this endpoint.  The db.commit on success
persists every object mutation of the run. -/
def calculate_evaluation (etype : EvaluationType) (tw fw : ℚ)
    (evals : List Evaluation) (s : St) (tender_id : Nat) :
    Except ApiError (St × EvalResult) :=
  match s.tenders.find? (fun t => decide (t.id = tender_id)) with
  | none => .error .notFound
  | some _ =>
    if (submittedBids s tender_id).isEmpty then .error .badRequest
    else
      .ok ({ s with bids := newBidsAfterCalc etype tw fw evals s tender_id },
        calcResult etype tw fw evals s tender_id)

/-! ### get_comparative_statement (evaluation.py lines 340-402) -/

/-- BidComparison response item (schemas), without its string fields and the
criterion-name keyed score map (no claim mentions them). -/
structure BidComparison where
  bid_id : Nat
  technical_score : Option ℚ
  financial_amount : Option ℚ
  financial_score : Option ℚ
  combined_score : Option ℚ
  rank : Option Nat
  is_qualified : Bool
deriving DecidableEq

/-- BidComparison built from a bid row (lines 367-379); is_qualified is
`bid.is_qualified or False`. -/
def toComparison (b : Bid) : BidComparison :=
  { bid_id := b.id
    technical_score := b.technical_score
    financial_amount := b.financial_amount
    financial_score := b.financial_score
    combined_score := b.combined_score
    rank := b.rank
    is_qualified := decide (b.is_qualified = some true) }

/-- ComparativeStatementResponse (lines 392-402), without string fields and
timestamps; the recommendation is reduced to the recommended bid id. -/
structure CompStatement where
  tender_id : Nat
  total_bids : Nat
  qualified_bids : Nat
  bids : List BidComparison
  recommendation : Option Nat
deriving DecidableEq

/-- Predicate of the comparative-statement bid query (lines 354-357):
status in [SUBMITTED, QUALIFIED, SHORTLISTED]. -/
def isComparable (tender_id : Nat) (b : Bid) : Bool :=
  decide (b.tender_id = tender_id ∧
    (b.status = BidStatus.submitted ∨ b.status = BidStatus.qualified ∨
      b.status = BidStatus.shortlisted))

/-- ORDER BY Bid.rank of the bid query, modelled as a stable sort with NULL
ranks first (SQLite NULL ordering; no claim depends on the row order). -/
def rankLe (a b : Bid) : Bool :=
  match a.rank, b.rank with
  | none, _ => true
  | some _, none => false
  | some i, some j => decide (i ≤ j)

/-- Endpoint GET /tender/tender_id/comparative-statement (lines 340-402).
It issues no UPDATE and no commit, so it returns only the response. -/
def get_comparative_statement (s : St) (tender_id : Nat) :
    Except ApiError CompStatement :=
  match s.tenders.find? (fun t => decide (t.id = tender_id)) with
  | none => .error .notFound
  | some _ =>
    let bids := stableSort rankLe (s.bids.filter (isComparable tender_id))
    .ok
      { tender_id := tender_id
        total_bids := bids.length
        qualified_bids := (bids.filter (fun b => decide (b.is_qualified = some true))).length
        bids := bids.map toComparison
        recommendation :=
          (bids.find? (fun b => decide (b.rank = some 1))).map (fun b => b.id) }

/-! ### declare_winner (evaluation.py lines 405-446) -/

/-- Endpoint POST /tender/tender_id/declare-winner (lines 405-446).
Both lookups precede every mutation, so an error response leaves the state
untouched; on success the commit persists: the tender set to AWARDED, the
chosen bid set to AWARDED, and the bulk UPDATE of every other bid of the
tender to REJECTED. -/
def declare_winner (tender_id bid_id : Nat) (s : St) : Except ApiError St :=
  match s.tenders.find? (fun t => decide (t.id = tender_id)) with
  | none => .error .notFound
  | some _ =>
    match s.bids.find? (fun b => decide (b.id = bid_id ∧ b.tender_id = tender_id)) with
    | none => .error .notFound
    | some _ =>
      .ok
        { tenders := s.tenders.map
            (fun t => if t.id = tender_id then { t with status := .awarded } else t)
          bids := s.bids.map
            (fun b =>
              if b.id = bid_id ∧ b.tender_id = tender_id then
                { b with status := .awarded }
              else if b.tender_id = tender_id ∧ b.id ≠ bid_id then
                { b with status := .rejected }
              else b) }

/-- Projection: the bid ids listed in a ranking response, in rank order. -/
def rankedIdsOf : Except ApiError (St × EvalResult) → List Nat
  | .ok (_, res) => res.rankings.map BidRanking.bid_id
  | .error _ => []

/-! ### Concrete fixtures used by witnesses and counterexamples -/

/-- Fixture: the worked scenario of spec section 8 — three submitted bids,
amounts 100/90/110, one evaluator score each (80/70/90, weight 1). -/
def exStA : St :=
  { tenders := [{ id := 1, status := .underEvaluation }]
    bids :=
      [ { id := 1, tender_id := 1, status := .submitted, financial_amount := some 100 }
      , { id := 2, tender_id := 1, status := .submitted, financial_amount := some 90 }
      , { id := 3, tender_id := 1, status := .submitted, financial_amount := some 110 } ] }

/-- Evaluator scores of fixture A. -/
def exEvalsA : List Evaluation :=
  [ { bid_id := 1, score := 80, weight := 1 }
  , { bid_id := 2, score := 70, weight := 1 }
  , { bid_id := 3, score := 90, weight := 1 } ]

/-- Fixture: the state fixture A reaches after bid 1 is declared winner. -/
def exStAawarded1 : St :=
  { tenders := [{ id := 1, status := .awarded }]
    bids :=
      [ { id := 1, tender_id := 1, status := .awarded, financial_amount := some 100 }
      , { id := 2, tender_id := 1, status := .rejected, financial_amount := some 90 }
      , { id := 3, tender_id := 1, status := .rejected, financial_amount := some 110 } ] }

/-- Fixture: a DRAFT tender (not under evaluation) holding one submitted,
never-evaluated bid. -/
def exStB : St :=
  { tenders := [{ id := 1, status := .draft }]
    bids := [{ id := 1, tender_id := 1, status := .submitted }] }

/-- Fixture: two submitted bids, one with a financial amount and one without,
each scored by one evaluator (70 and 90, weight 1). -/
def exStD : St :=
  { tenders := [{ id := 1, status := .underEvaluation }]
    bids :=
      [ { id := 1, tender_id := 1, status := .submitted, financial_amount := some 100 }
      , { id := 2, tender_id := 1, status := .submitted } ] }

/-- Evaluator scores of fixture D. -/
def exEvalsD : List Evaluation :=
  [ { bid_id := 1, score := 70, weight := 1 }, { bid_id := 2, score := 90, weight := 1 } ]

/-- Fixture: one tender whose only bid is in status AWARDED (a status that is
neither draft nor withdrawn). -/
def exStE : St :=
  { tenders := [{ id := 1, status := .awarded }]
    bids := [{ id := 1, tender_id := 1, status := .awarded, rank := some 1 }] }

/-- Fixture: two submitted bids carrying already-persisted technical scores
and qualification flags (no Evaluation rows), with financial amounts. -/
def exStC : St :=
  { tenders := [{ id := 1, status := .underEvaluation }]
    bids :=
      [ { id := 1, tender_id := 1, status := .submitted, financial_amount := some 100,
          technical_score := some 70, is_qualified := some true }
      , { id := 2, tender_id := 1, status := .submitted, financial_amount := some 90,
          technical_score := some 90, is_qualified := some true } ] }

/-- Fixture: the second bid of fixture C (the cheaper, higher-scored one). -/
def exBidC2 : Bid :=
  { id := 2, tender_id := 1, status := .submitted, financial_amount := some 90,
    technical_score := some 90, is_qualified := some true }

/-- Fixture: the state fixture C reaches after a T1 run (bid 2 ranks first). -/
def exStC2 : St :=
  { tenders := [{ id := 1, status := .underEvaluation }]
    bids :=
      [ { id := 1, tender_id := 1, status := .submitted, financial_amount := some 100,
          technical_score := some 70, rank := some 2, is_qualified := some true }
      , { id := 2, tender_id := 1, status := .submitted, financial_amount := some 90,
          technical_score := some 90, rank := some 1, is_qualified := some true } ] }

/-- Fixture: the response of the T1 run on fixture C. -/
def exResC : EvalResult :=
  { total_bids := 2, qualified_bids := 2, disqualified_bids := 0
    rankings :=
      [ { rank := 1, bid_id := 2, technical_score := some 90, financial_amount := some 90 }
      , { rank := 2, bid_id := 1, technical_score := some 70, financial_amount := some 100 } ] }

/-- Fixture: the state fixture B reaches after a T1 run (the unscored bid is
ranked). -/
def exStB2 : St :=
  { tenders := [{ id := 1, status := .draft }]
    bids := [{ id := 1, tender_id := 1, status := .submitted, rank := some 1 }] }

/-- Fixture: the response of the T1 run on fixture B: the unscored bid
appears, reported with a NULL technical score. -/
def exResB : EvalResult :=
  { total_bids := 1, qualified_bids := 0, disqualified_bids := 1
    rankings := [{ rank := 1, bid_id := 1, technical_score := none, financial_amount := none }] }

/-- Fixture: two qualified submitted bids, only the first carrying a
financial amount (no Evaluation rows). -/
def exStF : St :=
  { tenders := [{ id := 1, status := .underEvaluation }]
    bids :=
      [ { id := 1, tender_id := 1, status := .submitted, financial_amount := some 100,
          technical_score := some 70, is_qualified := some true }
      , { id := 2, tender_id := 1, status := .submitted,
          technical_score := some 90, is_qualified := some true } ] }

/-- Fixture: fixture F after a T1 run (bid 2 rank 1, bid 1 rank 2). -/
def exStF1 : St :=
  { tenders := [{ id := 1, status := .underEvaluation }]
    bids :=
      [ { id := 1, tender_id := 1, status := .submitted, financial_amount := some 100,
          technical_score := some 70, rank := some 2, is_qualified := some true }
      , { id := 2, tender_id := 1, status := .submitted,
          technical_score := some 90, rank := some 1, is_qualified := some true } ] }

/-- Fixture: fixture F after the T1 run and then an L1 run: bid 1 (the only
L1 candidate) is re-ranked 1 while bid 2 keeps its stale T1 rank 1 — two
bids of the same tender now share rank 1. -/
def exStF2 : St :=
  { tenders := [{ id := 1, status := .underEvaluation }]
    bids :=
      [ { id := 1, tender_id := 1, status := .submitted, financial_amount := some 100,
          technical_score := some 70, rank := some 1, is_qualified := some true }
      , { id := 2, tender_id := 1, status := .submitted,
          technical_score := some 90, rank := some 1, is_qualified := some true } ] }

/-- Fixture: the response of the T1 run on fixture F. -/
def exResF1 : EvalResult :=
  { total_bids := 2, qualified_bids := 2, disqualified_bids := 0
    rankings :=
      [ { rank := 1, bid_id := 2, technical_score := some 90, financial_amount := none }
      , { rank := 2, bid_id := 1, technical_score := some 70, financial_amount := some 100 } ] }

/-- Fixture: the response of the L1 run on fixture F1. -/
def exResF2 : EvalResult :=
  { total_bids := 2, qualified_bids := 2, disqualified_bids := 0
    rankings :=
      [ { rank := 1, bid_id := 1, technical_score := some 70, financial_amount := some 100 } ] }

/-! ### Generic lemmas about the stable sort -/

theorem mem_insertBy {α : Type} (le : α → α → Bool) (x : α) (l : List α) (z : α) :
    z ∈ insertBy le x l ↔ z = x ∨ z ∈ l := by
  induction l with
  | nil => simp [insertBy]
  | cons y ys ih =>
    simp only [insertBy]
    by_cases h : le x y = true
    · simp [h]
    · simp only [if_neg h, List.mem_cons, ih]
      tauto

theorem insertBy_perm {α : Type} (le : α → α → Bool) (x : α) (l : List α) :
    (insertBy le x l).Perm (x :: l) := by
  induction l with
  | nil => simp [insertBy]
  | cons y ys ih =>
    simp only [insertBy]
    by_cases h : le x y = true
    · simp [h]
    · rw [if_neg h]
      exact (ih.cons y).trans (List.Perm.swap x y ys)

theorem stableSort_perm {α : Type} (le : α → α → Bool) (l : List α) :
    (stableSort le l).Perm l := by
  induction l with
  | nil => simp [stableSort]
  | cons x xs ih =>
    exact (insertBy_perm le x (stableSort le xs)).trans (ih.cons x)

theorem mem_stableSort {α : Type} (le : α → α → Bool) (l : List α) (z : α) :
    z ∈ stableSort le l ↔ z ∈ l :=
  (stableSort_perm le l).mem_iff

theorem length_stableSort {α : Type} (le : α → α → Bool) (l : List α) :
    (stableSort le l).length = l.length :=
  (stableSort_perm le l).length_eq

/-- Pairwise shape of an insertion step: S must hold backwards across a
failed comparison (hA), forwards across a successful comparison against a
T-later element (hB), and compose across one successful comparison (hC). -/
theorem pairwise_insertBy {α : Type} {le : α → α → Bool} {S T : α → α → Prop}
    (hA : ∀ x y, le x y = false → S y x)
    (hB : ∀ x y, T x y → le x y = true → S x y)
    (hC : ∀ x y z, T x z → le x y = true → S y z → S x z)
    (x : α) (l : List α) (hl : l.Pairwise S) (hx : ∀ y ∈ l, T x y) :
    (insertBy le x l).Pairwise S := by
  induction l with
  | nil => simp [insertBy]
  | cons y ys ih =>
    rw [List.pairwise_cons] at hl
    obtain ⟨hy, hys⟩ := hl
    simp only [insertBy]
    by_cases h : le x y = true
    · rw [if_pos h]
      refine List.Pairwise.cons ?_ (List.Pairwise.cons hy hys)
      intro z hz
      rcases List.mem_cons.mp hz with h1 | hz
      · rw [h1]
        exact hB x y (hx y (List.mem_cons_self y ys)) h
      · exact hC x y z (hx z (List.mem_cons_of_mem y hz)) h (hy z hz)
    · rw [if_neg h]
      refine List.Pairwise.cons ?_ (ih hys (fun z hz => hx z (List.mem_cons_of_mem y hz)))
      intro z hz
      rcases (mem_insertBy le x ys z).mp hz with rfl | hz
      · exact hA z y (Bool.eq_false_iff.mpr h)
      · exact hy z hz

/-- Pairwise property of the stable sort, for input lists that are Pairwise T. -/
theorem pairwise_stableSort {α : Type} {le : α → α → Bool} {S T : α → α → Prop}
    (hA : ∀ x y, le x y = false → S y x)
    (hB : ∀ x y, T x y → le x y = true → S x y)
    (hC : ∀ x y z, T x z → le x y = true → S y z → S x z)
    (l : List α) (hl : l.Pairwise T) :
    (stableSort le l).Pairwise S := by
  induction l with
  | nil => simp [stableSort]
  | cons x xs ih =>
    rw [List.pairwise_cons] at hl
    obtain ⟨hxT, hxs⟩ := hl
    exact pairwise_insertBy hA hB hC x (stableSort le xs) (ih hxs)
      (fun y hy => hxT y ((mem_stableSort le xs y).mp hy))

/-- Sortedness of the stable sort for a total transitive Bool comparator. -/
theorem sorted_stableSort {α : Type} {le : α → α → Bool}
    (htot : ∀ x y, le x y = false → le y x = true)
    (htrans : ∀ x y z, le x y = true → le y z = true → le x z = true)
    (l : List α) :
    (stableSort le l).Pairwise (fun a b => le a b = true) := by
  refine pairwise_stableSort (T := fun _ _ => True) htot (fun x y _ h => h)
    (fun x y z _ hxy hyz => htrans x y z hxy hyz) l ?_
  induction l with
  | nil => exact List.Pairwise.nil
  | cons x xs ih => exact List.Pairwise.cons (fun _ _ => trivial) ih

theorem insertBy_map {α β : Type} (le : α → α → Bool) (f : β → α) (x : β) (l : List β) :
    insertBy le (f x) (l.map f) = (insertBy (fun a b => le (f a) (f b)) x l).map f := by
  induction l with
  | nil => simp [insertBy]
  | cons y ys ih =>
    simp only [List.map_cons, insertBy]
    by_cases h : le (f x) (f y) = true
    · simp [h]
    · simp [h, ih]

/-- Sorting a mapped list is mapping the sort under the pulled-back comparator. -/
theorem stableSort_map {α β : Type} (le : α → α → Bool) (f : β → α) (l : List β) :
    stableSort le (l.map f) = (stableSort (fun a b => le (f a) (f b)) l).map f := by
  induction l with
  | nil => simp [stableSort]
  | cons x xs ih => simp only [List.map_cons, stableSort, ih, insertBy_map]

theorem insertBy_congr {α : Type} {le le' : α → α → Bool} (x : α) (l : List α)
    (h : ∀ y ∈ l, le x y = le' x y) : insertBy le x l = insertBy le' x l := by
  induction l with
  | nil => rfl
  | cons y ys ih =>
    simp only [insertBy, h y (List.mem_cons_self y ys)]
    by_cases hy : le' x y = true
    · simp [hy]
    · simp only [if_neg hy]
      rw [ih (fun z hz => h z (List.mem_cons_of_mem y hz))]

/-- The sort only looks at comparator values between members of the list. -/
theorem stableSort_congr {α : Type} {le le' : α → α → Bool} (l : List α)
    (h : ∀ x ∈ l, ∀ y ∈ l, le x y = le' x y) : stableSort le l = stableSort le' l := by
  induction l with
  | nil => rfl
  | cons x xs ih =>
    simp only [stableSort]
    rw [ih (fun a ha b hb => h a (List.mem_cons_of_mem x ha) b (List.mem_cons_of_mem x hb))]
    exact insertBy_congr x (stableSort le' xs) (fun y hy =>
      h x (List.mem_cons_self x xs) y
        (List.mem_cons_of_mem x ((mem_stableSort le' xs y).mp hy)))

/-! ### Keyed lookup lemmas (ORM object identity by primary key) -/

theorem find?_key_of_mem {α : Type} (f : α → Nat) {l : List α}
    (h : (l.map f).Nodup) {b : α} (hb : b ∈ l) :
    l.find? (fun r => decide (f r = f b)) = some b := by
  induction l with
  | nil => cases hb
  | cons c cs ih =>
    rw [List.map_cons, List.nodup_cons] at h
    obtain ⟨hc, hcs⟩ := h
    by_cases hcb : f c = f b
    · have hbc : b = c := by
        rcases List.mem_cons.mp hb with h1 | h1
        · exact h1
        · exact absurd (hcb ▸ List.mem_map_of_mem f h1) hc
      rw [hbc]
      exact List.find?_cons_of_pos cs (by simp)
    · have hbcs : b ∈ cs := by
        rcases List.mem_cons.mp hb with h1 | h1
        · rw [h1] at hcb
          exact absurd rfl hcb
        · exact h1
      rw [List.find?_cons_of_neg cs (by simpa using hcb)]
      exact ih hcs hbcs

theorem find?_key_none {α : Type} (f : α → Nat) (l : List α) (k : Nat)
    (h : k ∉ l.map f) :
    l.find? (fun r => decide (f r = k)) = none := by
  refine List.find?_eq_none.mpr (fun a ha => ?_)
  simp only [decide_eq_true_eq]
  intro e
  exact h (e ▸ List.mem_map_of_mem f ha)

theorem filter_key_singleton {α : Type} (f : α → Nat) {l : List α}
    (h : (l.map f).Nodup) {b : α} (hb : b ∈ l) :
    l.filter (fun x => decide (f x = f b)) = [b] := by
  induction l with
  | nil => cases hb
  | cons c cs ih =>
    rw [List.map_cons, List.nodup_cons] at h
    obtain ⟨hc, hcs⟩ := h
    by_cases hcb : f c = f b
    · have hbc : b = c := by
        rcases List.mem_cons.mp hb with h1 | h1
        · exact h1
        · exact absurd (hcb ▸ List.mem_map_of_mem f h1) hc
      rw [List.filter_cons_of_pos (by simp [hcb])]
      rw [hbc]
      congr 1
      rw [List.filter_eq_nil_iff]
      intro a ha
      simp only [decide_eq_true_eq]
      intro e
      exact hc (e ▸ List.mem_map_of_mem f ha)
    · have hbcs : b ∈ cs := by
        rcases List.mem_cons.mp hb with h1 | h1
        · rw [h1] at hcb
          exact absurd rfl hcb
        · exact h1
      rw [List.filter_cons_of_neg (by simpa using hcb)]
      exact ih hcs hbcs

/-! ### Bid record lemmas -/

theorem Bid.ext_fields {b c : Bid}
    (h1 : b.id = c.id) (h2 : b.tender_id = c.tender_id) (h3 : b.status = c.status)
    (h4 : b.financial_amount = c.financial_amount)
    (h5 : b.technical_score = c.technical_score)
    (h6 : b.financial_score = c.financial_score)
    (h7 : b.combined_score = c.combined_score)
    (h8 : b.rank = c.rank) (h9 : b.is_qualified = c.is_qualified) : b = c := by
  cases b
  cases c
  congr 1

theorem Bid.withRank_self {b : Bid} {r : Option Nat} (h : b.rank = r) :
    ({ b with rank := r } : Bid) = b :=
  Bid.ext_fields rfl rfl rfl rfl rfl rfl rfl (by rw [h]) rfl

theorem Bid.withScores_self {b : Bid} {fs cs : Option ℚ}
    (h1 : b.financial_score = fs) (h2 : b.combined_score = cs) :
    ({ b with financial_score := fs, combined_score := cs } : Bid) = b :=
  Bid.ext_fields rfl rfl rfl rfl rfl (by rw [h1]) (by rw [h2]) rfl rfl

/-! ### enumFrom helpers -/

theorem enumFrom_map {α β : Type} (f : α → β) (n : Nat) (l : List α) :
    List.enumFrom n (l.map f) = (List.enumFrom n l).map (fun p => (p.1, f p.2)) := by
  induction l generalizing n with
  | nil => rfl
  | cons x xs ih => simp [List.enumFrom, ih]

theorem snd_mem_of_mem_enumFrom {α : Type} {n : Nat} {l : List α} {p : Nat × α}
    (h : p ∈ List.enumFrom n l) : p.2 ∈ l := by
  have hm := List.enumFrom_map_snd n l
  rw [← hm]
  exact List.mem_map_of_mem Prod.snd h

theorem pairwise_enumFrom {α : Type} {S : α → α → Prop} {l : List α}
    (h : l.Pairwise S) (n : Nat) :
    (List.enumFrom n l).Pairwise (fun p q => S p.2 q.2) := by
  have hm := List.enumFrom_map_snd n l
  rw [← hm] at h
  exact List.pairwise_map.mp h

/-- A filter whose predicate pins the primary key down to that of a member
returns exactly that member, when keys are duplicate-free. -/
theorem filter_eq_singleton_of_key {α : Type} (f : α → Nat) {l : List α}
    (h : (l.map f).Nodup) {b : α} (hb : b ∈ l) (q : α → Bool)
    (hqb : q b = true) (hq : ∀ x, q x = true → f x = f b) :
    l.filter q = [b] := by
  induction l with
  | nil => cases hb
  | cons c cs ih =>
    rw [List.map_cons, List.nodup_cons] at h
    obtain ⟨hc, hcs⟩ := h
    by_cases hqc : q c = true
    · have hbc : b = c := by
        rcases List.mem_cons.mp hb with h1 | h1
        · exact h1
        · exact absurd ((hq c hqc) ▸ List.mem_map_of_mem f h1) hc
      rw [List.filter_cons_of_pos hqc, hbc]
      congr 1
      rw [List.filter_eq_nil_iff]
      intro a ha hqa
      rw [hbc] at hq
      exact hc ((hq a hqa) ▸ List.mem_map_of_mem f ha)
    · have hbcs : b ∈ cs := by
        rcases List.mem_cons.mp hb with h1 | h1
        · rw [h1] at hqb
          exact absurd hqb hqc
        · exact h1
      rw [List.filter_cons_of_neg hqc]
      exact ih hcs hbcs

/-! ### C1: award transition -/

/-- C1: for every call of declare_winner with tender T and bid B: if B
belongs to T then on the successful response exactly one bid of T is
AWARDED — and it carries id B — every other bid of T is REJECTED, and T is
AWARDED; because this holds at every state, a re-invocation with a different
bid id re-establishes the invariant, flipping the single winner.  If no bid
with id B belongs to T, the call fails with NotFound (404) and, the lookups
preceding every mutation, no state change is committed. -/
theorem declare_winner_award_invariant (tender_id bid_id : Nat) (s : St)
    (hids : (s.bids.map Bid.id).Nodup) :
    (∀ s2, declare_winner tender_id bid_id s = Except.ok s2 →
      (∃ w, s2.bids.filter
          (fun b => decide (b.tender_id = tender_id ∧ b.status = BidStatus.awarded)) = [w] ∧
        w.id = bid_id) ∧
      (∀ b ∈ s2.bids, b.tender_id = tender_id → b.id ≠ bid_id →
        b.status = BidStatus.rejected) ∧
      (∀ t ∈ s2.tenders, t.id = tender_id → t.status = TenderStatus.awarded)) ∧
    ((∀ b ∈ s.bids, ¬ (b.id = bid_id ∧ b.tender_id = tender_id)) →
      declare_winner tender_id bid_id s = Except.error ApiError.notFound) := by
  constructor
  · intro s2 hok
    unfold declare_winner at hok
    rcases hf : s.tenders.find? (fun t => decide (t.id = tender_id)) with _ | t
    · rw [hf] at hok
      cases hok
    rw [hf] at hok
    rcases hg : s.bids.find? (fun b => decide (b.id = bid_id ∧ b.tender_id = tender_id))
      with _ | b0
    · rw [hg] at hok
      cases hok
    rw [hg] at hok
    have hb0 : b0 ∈ s.bids := List.mem_of_find?_eq_some hg
    have hb0p : b0.id = bid_id ∧ b0.tender_id = tender_id := by
      have := List.find?_some hg
      simpa using this
    cases hok
    refine ⟨?_, ?_, ?_⟩
    · refine ⟨{ b0 with status := BidStatus.awarded }, ?_, hb0p.1⟩
      simp only
      rw [List.filter_map]
      have hfe : s.bids.filter
          ((fun b => decide (b.tender_id = tender_id ∧ b.status = BidStatus.awarded)) ∘
            (fun b =>
              if b.id = bid_id ∧ b.tender_id = tender_id then
                { b with status := BidStatus.awarded }
              else if b.tender_id = tender_id ∧ b.id ≠ bid_id then
                { b with status := BidStatus.rejected }
              else b)) = [b0] := by
        refine filter_eq_singleton_of_key Bid.id hids hb0
          _ ?_ ?_
        · simp [hb0p.1, hb0p.2]
        · intro x
          simp only [Function.comp_apply]
          by_cases h1 : x.id = bid_id ∧ x.tender_id = tender_id
          · rw [if_pos h1]
            intro _
            rw [h1.1, hb0p.1]
          · rw [if_neg h1]
            by_cases h2 : x.tender_id = tender_id ∧ x.id ≠ bid_id
            · rw [if_pos h2]
              simp
            · rw [if_neg h2]
              intro hx
              rw [decide_eq_true_eq] at hx
              exfalso
              by_cases h3 : x.id = bid_id
              · exact h1 ⟨h3, hx.1⟩
              · exact h2 ⟨hx.1, h3⟩
      rw [hfe]
      rw [List.map_cons, List.map_nil, if_pos hb0p]
    · intro b hbmem hbt hbne
      simp only [List.mem_map] at hbmem
      obtain ⟨a, _, ha2⟩ := hbmem
      by_cases h1 : a.id = bid_id ∧ a.tender_id = tender_id
      · rw [if_pos h1] at ha2
        exfalso
        apply hbne
        rw [← ha2]
        exact h1.1
      · rw [if_neg h1] at ha2
        by_cases h2 : a.tender_id = tender_id ∧ a.id ≠ bid_id
        · rw [if_pos h2] at ha2
          rw [← ha2]
        · rw [if_neg h2] at ha2
          exact absurd ⟨ha2.symm ▸ hbt, ha2.symm ▸ hbne⟩ h2
    · intro t htmem htid
      simp only [List.mem_map] at htmem
      obtain ⟨a, _, ha2⟩ := htmem
      by_cases h1 : a.id = tender_id
      · rw [if_pos h1] at ha2
        rw [← ha2]
      · rw [if_neg h1] at ha2
        exfalso
        subst ha2
        exact h1 htid
  · intro hno
    unfold declare_winner
    rcases hf : s.tenders.find? (fun t => decide (t.id = tender_id)) with _ | t
    · rw [hf]
    have hg : s.bids.find? (fun b => decide (b.id = bid_id ∧ b.tender_id = tender_id)) =
        none := by
      refine List.find?_eq_none.mpr (fun a ha => ?_)
      simpa using hno a ha
    rw [hf, hg]

/-- Witness for C1, exercised on the re-invocation scenario: fixture A after
bid 1 has already been declared winner; declaring bid 2 afterwards flips the
single winner. -/
theorem declare_winner_award_invariant_witness :
    declare_winner 1 1 exStA = Except.ok exStAawarded1 ∧
    (exStAawarded1.bids.map Bid.id).Nodup ∧
    ((∀ s2, declare_winner 1 2 exStAawarded1 = Except.ok s2 →
      (∃ w, s2.bids.filter
          (fun b => decide (b.tender_id = 1 ∧ b.status = BidStatus.awarded)) = [w] ∧
        w.id = 2) ∧
      (∀ b ∈ s2.bids, b.tender_id = 1 → b.id ≠ 2 →
        b.status = BidStatus.rejected) ∧
      (∀ t ∈ s2.tenders, t.id = 1 → t.status = TenderStatus.awarded)) ∧
    ((∀ b ∈ exStAawarded1.bids, ¬ (b.id = 2 ∧ b.tender_id = 1)) →
      declare_winner 1 2 exStAawarded1 = Except.error ApiError.notFound)) :=
  ⟨by decide, by decide, declare_winner_award_invariant 1 2 exStAawarded1 (by decide)⟩

/-! ### Field behaviour of the pipeline stages -/

theorem scoreBid_of_empty {evals : List Evaluation} {b : Bid}
    (h : (evalsFor evals b.id).isEmpty = true) : scoreBid evals b = b := by
  unfold scoreBid
  rw [if_pos h]

theorem scoreBid_of_nonempty {evals : List Evaluation} {b : Bid}
    (h : ¬ (evalsFor evals b.id).isEmpty = true) :
    scoreBid evals b =
      { b with technical_score := some (totalScore (evalsFor evals b.id)),
               is_qualified := some (decide (60 ≤ totalScore (evalsFor evals b.id))) } := by
  unfold scoreBid
  rw [if_neg h]

theorem scoreBid_untouched (evals : List Evaluation) (b : Bid) :
    (scoreBid evals b).id = b.id ∧ (scoreBid evals b).tender_id = b.tender_id ∧
    (scoreBid evals b).status = b.status ∧
    (scoreBid evals b).financial_amount = b.financial_amount ∧
    (scoreBid evals b).financial_score = b.financial_score ∧
    (scoreBid evals b).combined_score = b.combined_score ∧
    (scoreBid evals b).rank = b.rank := by
  by_cases h : (evalsFor evals b.id).isEmpty = true
  · rw [scoreBid_of_empty h]
    exact ⟨rfl, rfl, rfl, rfl, rfl, rfl, rfl⟩
  · rw [scoreBid_of_nonempty h]
    exact ⟨rfl, rfl, rfl, rfl, rfl, rfl, rfl⟩

theorem scoreBid_idem (evals : List Evaluation) (b : Bid) :
    scoreBid evals (scoreBid evals b) = scoreBid evals b := by
  have hid := (scoreBid_untouched evals b).1
  by_cases h : (evalsFor evals b.id).isEmpty = true
  · rw [scoreBid_of_empty h]
    exact scoreBid_of_empty h
  · have h2 : ¬ (evalsFor evals (scoreBid evals b).id).isEmpty = true := by
      rw [hid]
      exact h
    rw [scoreBid_of_nonempty h2, hid, scoreBid_of_nonempty h]

theorem qcbsScore_untouched (tw fw mn : ℚ) (b : Bid) :
    (qcbsScore tw fw mn b).id = b.id ∧ (qcbsScore tw fw mn b).tender_id = b.tender_id ∧
    (qcbsScore tw fw mn b).status = b.status ∧
    (qcbsScore tw fw mn b).financial_amount = b.financial_amount ∧
    (qcbsScore tw fw mn b).technical_score = b.technical_score ∧
    (qcbsScore tw fw mn b).is_qualified = b.is_qualified ∧
    (qcbsScore tw fw mn b).rank = b.rank :=
  ⟨rfl, rfl, rfl, rfl, rfl, rfl, rfl⟩

theorem qcbsScore_idem (tw fw mn : ℚ) (b : Bid) :
    qcbsScore tw fw mn (qcbsScore tw fw mn b) = qcbsScore tw fw mn b := rfl

/-- Inversion of a successful calculate_evaluation call. -/
theorem calculate_evaluation_ok {etype : EvaluationType} {tw fw : ℚ}
    {evals : List Evaluation} {s : St} {tender_id : Nat} {s2 : St} {res : EvalResult}
    (h : calculate_evaluation etype tw fw evals s tender_id = Except.ok (s2, res)) :
    s2 = { s with bids := newBidsAfterCalc etype tw fw evals s tender_id } ∧
    res = calcResult etype tw fw evals s tender_id ∧
    (∃ t, s.tenders.find? (fun t => decide (t.id = tender_id)) = some t) ∧
    (submittedBids s tender_id).isEmpty = false := by
  unfold calculate_evaluation at h
  rcases hf : s.tenders.find? (fun t => decide (t.id = tender_id)) with _ | t
  · rw [hf] at h
    cases h
  rw [hf] at h
  by_cases he : (submittedBids s tender_id).isEmpty = true
  · rw [if_pos he] at h
    cases h
  · rw [if_neg he] at h
    injection h with h2
    injection h2 with ha hb
    exact ⟨ha.symm, hb.symm, ⟨t, hf⟩, Bool.eq_false_iff.mpr he⟩

/-! ### Shape of the ranked output -/

/-- Assigned ranks of a branch are literally the positions 1..N, in order. -/
theorem ranking_ranks_of_enum (etype : EvaluationType) (n : Nat) (l : List Bid) :
    (((List.enumFrom n l).map (fun p => ({ p.2 with rank := some p.1 } : Bid))).map
      (toRanking etype)).map BidRanking.rank = List.range' n l.length := by
  rw [List.map_map, List.map_map]
  have hc : ((BidRanking.rank ∘ toRanking etype) ∘
      fun p : Nat × Bid => ({ p.2 with rank := some p.1 } : Bid)) =
      (Prod.fst : Nat × Bid → Nat) := by
    funext p
    rfl
  rw [hc, List.enumFrom_map_fst]

/-- Every ranked object of a branch is a candidate with rank written on it. -/
theorem mem_enum_rank {n : Nat} {l : List Bid} {x : Bid}
    (hx : x ∈ (List.enumFrom n l).map (fun p => ({ p.2 with rank := some p.1 } : Bid))) :
    ∃ y ∈ l, ∃ r : Nat, x = { y with rank := some r } := by
  rcases List.mem_map.mp hx with ⟨p, hp, he⟩
  exact ⟨p.2, snd_mem_of_mem_enumFrom hp, p.1, he.symm⟩

theorem mem_rankUpdates_L1 {tw fw : ℚ} {bids : List Bid} {x : Bid}
    (hx : x ∈ rankUpdates .L1 tw fw bids) :
    ∃ y ∈ bids, isCandidate y = true ∧ ∃ r : Nat, x = { y with rank := some r } := by
  unfold rankUpdates at hx
  rcases mem_enum_rank hx with ⟨y, hy, r, he⟩
  rw [mem_stableSort] at hy
  exact ⟨y, List.mem_of_mem_filter hy, List.of_mem_filter hy, r, he⟩

theorem mem_rankUpdates_T1 {tw fw : ℚ} {bids : List Bid} {x : Bid}
    (hx : x ∈ rankUpdates .T1 tw fw bids) :
    ∃ y ∈ bids, ∃ r : Nat, x = { y with rank := some r } := by
  unfold rankUpdates at hx
  rcases mem_enum_rank hx with ⟨y, hy, r, he⟩
  rw [mem_stableSort] at hy
  exact ⟨y, hy, r, he⟩

theorem mem_rankUpdates_QCBS {tw fw : ℚ} {bids : List Bid} {x : Bid}
    (hx : x ∈ rankUpdates .QCBS tw fw bids) :
    ∃ y ∈ bids, isCandidate y = true ∧ ∃ r : Nat,
      x = { qcbsScore tw fw (minAmount (bids.filter isCandidate)) y with rank := some r } := by
  unfold rankUpdates at hx
  by_cases he : (bids.filter isCandidate).isEmpty = true
  · rw [if_pos he] at hx
    cases hx
  · rw [if_neg he] at hx
    rcases mem_enum_rank hx with ⟨y, hy, r, hxe⟩
    rw [mem_stableSort] at hy
    rcases List.mem_map.mp hy with ⟨z, hz, hze⟩
    exact ⟨z, List.mem_of_mem_filter hz, List.of_mem_filter hz, r, by rw [← hze] at hxe; exact hxe⟩

theorem rankUpdates_L2 (tw fw : ℚ) (bids : List Bid) :
    rankUpdates .L2 tw fw bids = [] := rfl

/-- Transfer of a pairwise relation on sorted bids to the response rankings. -/
theorem pairwise_rankings {etype : EvaluationType} {S : Bid → Bid → Prop}
    {R : BidRanking → BidRanking → Prop} {l : List Bid} (h : l.Pairwise S) (n : Nat)
    (hSR : ∀ (i j : Nat) (x y : Bid), S x y →
      R (toRanking etype { x with rank := some i }) (toRanking etype { y with rank := some j })) :
    (((List.enumFrom n l).map (fun p => ({ p.2 with rank := some p.1 } : Bid))).map
      (toRanking etype)).Pairwise R := by
  rw [List.map_map]
  refine List.pairwise_map.mpr ?_
  exact (pairwise_enumFrom h n).imp (fun hpq => hSR _ _ _ _ hpq)

theorem rankUpdates_L1_def (tw fw : ℚ) (bids : List Bid) :
    rankUpdates .L1 tw fw bids =
      (List.enumFrom 1 (stableSort (fun a b => decide (keyL1 a ≤ keyL1 b))
        (bids.filter isCandidate))).map (fun p => { p.2 with rank := some p.1 }) := rfl

theorem rankUpdates_T1_def (tw fw : ℚ) (bids : List Bid) :
    rankUpdates .T1 tw fw bids =
      (List.enumFrom 1 (stableSort (fun a b => decide (keyT1 b ≤ keyT1 a)) bids)).map
        (fun p => { p.2 with rank := some p.1 }) := rfl

theorem rankUpdates_QCBS_def (tw fw : ℚ) (bids : List Bid) :
    rankUpdates .QCBS tw fw bids =
      if (bids.filter isCandidate).isEmpty then []
      else
        (List.enumFrom 1 (stableSort (fun a b => decide (keyQCBS b ≤ keyQCBS a))
          ((bids.filter isCandidate).map
            (qcbsScore tw fw (minAmount (bids.filter isCandidate)))))).map
          (fun p => { p.2 with rank := some p.1 }) := rfl

/-- L1 sort output: strictly cheaper first, ties in ascending bid id order,
for an input in ascending bid id order (stability of Python sorted). -/
theorem sorted_L1 (l : List Bid) (hl : l.Pairwise (fun a b => a.id < b.id)) :
    (stableSort (fun a b => decide (keyL1 a ≤ keyL1 b)) l).Pairwise
      (fun x y => keyL1 x < keyL1 y ∨ (keyL1 x = keyL1 y ∧ x.id < y.id)) := by
  refine pairwise_stableSort (T := fun a b => a.id < b.id) ?_ ?_ ?_ l hl
  · intro x y hxy
    exact Or.inl (lt_of_not_le (of_decide_eq_false hxy))
  · intro x y hT hle
    rcases lt_or_eq_of_le (of_decide_eq_true hle) with h | h
    · exact Or.inl h
    · exact Or.inr ⟨h, hT⟩
  · intro x y z hT hle hS
    have hxy := of_decide_eq_true hle
    rcases hS with h | ⟨h, _⟩
    · exact Or.inl (lt_of_le_of_lt hxy h)
    · rcases lt_or_eq_of_le (hxy.trans_eq h) with h2 | h2
      · exact Or.inl h2
      · exact Or.inr ⟨h2, hT⟩

/-- Descending sort output (reverse=True): non-increasing in the key. -/
theorem sorted_desc (key : Bid → ℚ) (l : List Bid) :
    (stableSort (fun a b => decide (key b ≤ key a)) l).Pairwise
      (fun x y => key y ≤ key x) := by
  have h := @sorted_stableSort Bid (fun a b => decide (key b ≤ key a))
    (fun x y hxy => decide_eq_true (le_of_lt (lt_of_not_le (of_decide_eq_false hxy))))
    (fun x y z hxy hyz =>
      decide_eq_true ((of_decide_eq_true hyz).trans (of_decide_eq_true hxy))) l
  exact h.imp (fun hab => of_decide_eq_true hab)

/-- The scored submitted bids inherit the ascending id order of the table. -/
theorem pairwise_id_scored {evals : List Evaluation} {s : St} {tender_id : Nat}
    (hid : s.bids.Pairwise (fun a b => a.id < b.id)) :
    (scoredBids evals s tender_id).Pairwise (fun a b => a.id < b.id) := by
  unfold scoredBids submittedBids
  refine List.pairwise_map.mpr ?_
  refine (hid.filter (isSubmittedOf tender_id)).imp ?_
  intro a b hab
  rw [(scoreBid_untouched evals a).1, (scoreBid_untouched evals b).1]
  exact hab

/-- C2: on every successful ranking run the assigned ranks are exactly
1..N in order (a permutation of 1..N with no gaps or duplicates) with N the
size of the method's candidate set, and the rankings come out sorted by the
method key: L1 non-decreasing in financial_amount with ties in ascending bid
id order (given the table in ascending id order, the stable sort makes ties
follow original bid id order), T1 non-increasing in technical_score (the
sort key treats a NULL score as 0), QCBS non-increasing in combined_score. -/
theorem ranking_permutation_and_sorted (etype : EvaluationType) (tw fw : ℚ)
    (evals : List Evaluation) (s : St) (tender_id : Nat) (s2 : St) (res : EvalResult)
    (hid : s.bids.Pairwise (fun a b => a.id < b.id))
    (hok : calculate_evaluation etype tw fw evals s tender_id = Except.ok (s2, res)) :
    res.rankings.map BidRanking.rank = List.range' 1 res.rankings.length ∧
    (etype = .L1 →
      res.rankings.length = ((scoredBids evals s tender_id).filter isCandidate).length ∧
      res.rankings.Pairwise (fun a b =>
        a.financial_amount.getD 0 < b.financial_amount.getD 0 ∨
          (a.financial_amount.getD 0 = b.financial_amount.getD 0 ∧ a.bid_id < b.bid_id))) ∧
    (etype = .T1 →
      res.rankings.length = (submittedBids s tender_id).length ∧
      res.rankings.Pairwise (fun a b =>
        b.technical_score.getD 0 ≤ a.technical_score.getD 0)) ∧
    (etype = .QCBS →
      res.rankings.length = ((scoredBids evals s tender_id).filter isCandidate).length ∧
      res.rankings.Pairwise (fun a b =>
        b.combined_score.getD 0 ≤ a.combined_score.getD 0)) := by
  obtain ⟨-, hres, -, -⟩ := calculate_evaluation_ok hok
  have hrk : res.rankings =
      (rankedBids etype tw fw evals s tender_id).map (toRanking etype) := by
    rw [hres]
    rfl
  cases etype with
  | L1 =>
    rw [hrk]
    unfold rankedBids
    rw [rankUpdates_L1_def]
    refine ⟨?_, fun _ => ⟨?_, ?_⟩, fun h => absurd h (by decide), fun h => absurd h (by decide)⟩
    · rw [List.length_map, List.length_map, List.enumFrom_length]
      exact ranking_ranks_of_enum .L1 1 _
    · rw [List.length_map, List.length_map, List.enumFrom_length, length_stableSort]
    · exact pairwise_rankings
        (sorted_L1 _ ((pairwise_id_scored hid).filter isCandidate)) 1
        (fun i j x y hxy => hxy)
  | T1 =>
    rw [hrk]
    unfold rankedBids
    rw [rankUpdates_T1_def]
    refine ⟨?_, fun h => absurd h (by decide), fun _ => ⟨?_, ?_⟩, fun h => absurd h (by decide)⟩
    · rw [List.length_map, List.length_map, List.enumFrom_length]
      exact ranking_ranks_of_enum .T1 1 _
    · rw [List.length_map, List.length_map, List.enumFrom_length, length_stableSort]
      rw [scoredBids, List.length_map]
    · exact pairwise_rankings (sorted_desc keyT1 _) 1 (fun i j x y hxy => hxy)
  | QCBS =>
    rw [hrk]
    unfold rankedBids
    rw [rankUpdates_QCBS_def]
    by_cases he : ((scoredBids evals s tender_id).filter isCandidate).isEmpty = true
    · rw [if_pos he]
      rw [List.isEmpty_iff] at he
      rw [he]
      exact ⟨rfl, fun h => absurd h (by decide), fun h => absurd h (by decide),
        fun _ => ⟨rfl, List.Pairwise.nil⟩⟩
    · rw [if_neg he]
      refine ⟨?_, fun h => absurd h (by decide), fun h => absurd h (by decide),
        fun _ => ⟨?_, ?_⟩⟩
      · rw [List.length_map, List.length_map, List.enumFrom_length]
        exact ranking_ranks_of_enum .QCBS 1 _
      · rw [List.length_map, List.length_map, List.enumFrom_length, length_stableSort,
          List.length_map]
      · exact pairwise_rankings (sorted_desc keyQCBS _) 1 (fun i j x y hxy => hxy)
  | L2 =>
    rw [hrk]
    unfold rankedBids
    rw [rankUpdates_L2]
    exact ⟨rfl, fun h => absurd h (by decide), fun h => absurd h (by decide),
      fun h => absurd h (by decide)⟩

/-- Witness for C2 on fixture C (two scored, qualified, priced bids),
exercised on the T1 run, whose concrete output is fixture C2. -/
theorem ranking_permutation_and_sorted_witness :
    exStC.bids.Pairwise (fun a b => a.id < b.id) ∧
    calculate_evaluation .T1 (7/10) (3/10) [] exStC 1 = Except.ok (exStC2, exResC) ∧
    exResC.rankings.map BidRanking.rank = List.range' 1 exResC.rankings.length ∧
    exResC.rankings.length = (submittedBids exStC 1).length ∧
    exResC.rankings.Pairwise (fun a b =>
      b.technical_score.getD 0 ≤ a.technical_score.getD 0) := by
  refine ⟨by decide, by decide, ?_⟩
  obtain ⟨h1, -, h3, -⟩ := ranking_permutation_and_sorted .T1 (7/10) (3/10) [] exStC 1
    exStC2 exResC (by decide) (by decide)
  exact ⟨h1, (h3 rfl).1, (h3 rfl).2⟩

/-! ### Write-back characterization: which bid picks up which mutation -/

theorem enum_rank_map_id (n : Nat) (l : List Bid) :
    ((List.enumFrom n l).map (fun p => ({ p.2 with rank := some p.1 } : Bid))).map Bid.id =
      l.map Bid.id := by
  rw [List.map_map]
  have hc : (Bid.id ∘ fun p : Nat × Bid => ({ p.2 with rank := some p.1 } : Bid)) =
      Bid.id ∘ Prod.snd := by
    funext p
    rfl
  rw [hc, ← List.map_map, List.enumFrom_map_snd]

theorem rankedBids_T1_ids (tw fw : ℚ) (evals : List Evaluation) (s : St) (tender_id : Nat) :
    ((rankedBids .T1 tw fw evals s tender_id).map Bid.id).Perm
      ((scoredBids evals s tender_id).map Bid.id) := by
  unfold rankedBids
  rw [rankUpdates_T1_def, enum_rank_map_id]
  exact (stableSort_perm _ _).map Bid.id

theorem rankedBids_L1_ids (tw fw : ℚ) (evals : List Evaluation) (s : St) (tender_id : Nat) :
    ((rankedBids .L1 tw fw evals s tender_id).map Bid.id).Perm
      (((scoredBids evals s tender_id).filter isCandidate).map Bid.id) := by
  unfold rankedBids
  rw [rankUpdates_L1_def, enum_rank_map_id]
  exact (stableSort_perm _ _).map Bid.id

theorem rankedBids_QCBS_ids (tw fw : ℚ) (evals : List Evaluation) (s : St) (tender_id : Nat) :
    ((rankedBids .QCBS tw fw evals s tender_id).map Bid.id).Perm
      (((scoredBids evals s tender_id).filter isCandidate).map Bid.id) := by
  unfold rankedBids
  rw [rankUpdates_QCBS_def]
  by_cases he : ((scoredBids evals s tender_id).filter isCandidate).isEmpty = true
  · rw [if_pos he, List.isEmpty_iff.mp he]
  · rw [if_neg he, enum_rank_map_id]
    refine ((stableSort_perm _ _).map Bid.id).trans ?_
    rw [List.map_map]
    have hc : (Bid.id ∘ qcbsScore tw fw
        (minAmount ((scoredBids evals s tender_id).filter isCandidate))) = Bid.id := by
      funext b
      rfl
    rw [hc]

theorem scored_ids_eq (evals : List Evaluation) (s : St) (tender_id : Nat) :
    (scoredBids evals s tender_id).map Bid.id = (submittedBids s tender_id).map Bid.id := by
  unfold scoredBids
  rw [List.map_map]
  exact List.map_congr_left (fun b _ => (scoreBid_untouched evals b).1)

theorem scored_ids_nodup {evals : List Evaluation} {s : St} {tender_id : Nat}
    (hids : (s.bids.map Bid.id).Nodup) :
    ((scoredBids evals s tender_id).map Bid.id).Nodup := by
  rw [scored_ids_eq]
  exact hids.sublist ((List.filter_sublist s.bids).map Bid.id)

theorem cands_ids_nodup {evals : List Evaluation} {s : St} {tender_id : Nat}
    (hids : (s.bids.map Bid.id).Nodup) :
    (((scoredBids evals s tender_id).filter isCandidate).map Bid.id).Nodup :=
  (scored_ids_nodup hids).sublist
    ((List.filter_sublist (scoredBids evals s tender_id)).map Bid.id)

theorem applyRanked_id (ranked : List Bid) (b : Bid) :
    (applyRanked ranked b).id = b.id := by
  unfold applyRanked
  rcases h : ranked.find? (fun r => decide (r.id = b.id)) with _ | r
  · rw [h]
  · rw [h]
    have := List.find?_some h
    simpa using this

theorem applyRanked_of_none {ranked : List Bid} {b : Bid}
    (h : b.id ∉ ranked.map Bid.id) : applyRanked ranked b = b := by
  unfold applyRanked
  rw [find?_key_none Bid.id ranked b.id h]

/-- A submitted bid scores, then picks up the T1 rank written onto it. -/
theorem applyRanked_T1 (tw fw : ℚ) {evals : List Evaluation} {s : St} {tender_id : Nat}
    (hids : (s.bids.map Bid.id).Nodup) {b : Bid} (hb : b ∈ scoredBids evals s tender_id) :
    ∃ r : Nat, applyRanked (rankedBids .T1 tw fw evals s tender_id) b =
      { b with rank := some r } := by
  have hmem : b.id ∈ (rankedBids .T1 tw fw evals s tender_id).map Bid.id :=
    (rankedBids_T1_ids tw fw evals s tender_id).mem_iff.mpr (List.mem_map_of_mem Bid.id hb)
  rcases List.mem_map.mp hmem with ⟨x, hx, hxid⟩
  rcases mem_rankUpdates_T1 hx with ⟨y, hy, r, hxy⟩
  have hyid : y.id = b.id := by
    rw [hxy] at hxid
    exact hxid
  have hyb : y = b :=
    List.inj_on_of_nodup_map (scored_ids_nodup hids) hy hb hyid
  refine ⟨r, ?_⟩
  unfold applyRanked
  have hfind : (rankedBids .T1 tw fw evals s tender_id).find?
      (fun r2 => decide (r2.id = b.id)) = some x := by
    rw [← hxid]
    have hnd : ((rankedBids .T1 tw fw evals s tender_id).map Bid.id).Nodup :=
      (rankedBids_T1_ids tw fw evals s tender_id).nodup_iff.mpr (scored_ids_nodup hids)
    exact find?_key_of_mem Bid.id hnd hx
  rw [hfind, hxy, hyb]

/-- Under L1, a non-candidate keeps all its fields; a candidate picks up its
rank and nothing else. -/
theorem applyRanked_L1 (tw fw : ℚ) {evals : List Evaluation} {s : St} {tender_id : Nat}
    (hids : (s.bids.map Bid.id).Nodup) {b : Bid} (hb : b ∈ scoredBids evals s tender_id) :
    (isCandidate b = false → applyRanked (rankedBids .L1 tw fw evals s tender_id) b = b) ∧
    (isCandidate b = true → ∃ r : Nat,
      applyRanked (rankedBids .L1 tw fw evals s tender_id) b = { b with rank := some r }) := by
  constructor
  · intro hnc
    refine applyRanked_of_none ?_
    intro hmem
    have hmem2 : b.id ∈ ((scoredBids evals s tender_id).filter isCandidate).map Bid.id :=
      (rankedBids_L1_ids tw fw evals s tender_id).mem_iff.mp hmem
    rcases List.mem_map.mp hmem2 with ⟨y, hy, hyid⟩
    have hyb : y = b := List.inj_on_of_nodup_map (scored_ids_nodup hids)
      (List.mem_of_mem_filter hy) hb hyid
    rw [hyb] at hy
    rw [List.of_mem_filter hy] at hnc
    cases hnc
  · intro hc
    have hbc : b ∈ (scoredBids evals s tender_id).filter isCandidate :=
      List.mem_filter.mpr ⟨hb, hc⟩
    have hmem : b.id ∈ (rankedBids .L1 tw fw evals s tender_id).map Bid.id :=
      (rankedBids_L1_ids tw fw evals s tender_id).mem_iff.mpr (List.mem_map_of_mem Bid.id hbc)
    rcases List.mem_map.mp hmem with ⟨x, hx, hxid⟩
    rcases mem_rankUpdates_L1 hx with ⟨y, hy, -, r, hxy⟩
    have hyid : y.id = b.id := by
      rw [hxy] at hxid
      exact hxid
    have hyb : y = b := List.inj_on_of_nodup_map (scored_ids_nodup hids) hy hb hyid
    refine ⟨r, ?_⟩
    unfold applyRanked
    have hfind : (rankedBids .L1 tw fw evals s tender_id).find?
        (fun r2 => decide (r2.id = b.id)) = some x := by
      rw [← hxid]
      have hnd : ((rankedBids .L1 tw fw evals s tender_id).map Bid.id).Nodup :=
        (rankedBids_L1_ids tw fw evals s tender_id).nodup_iff.mpr (cands_ids_nodup hids)
      exact find?_key_of_mem Bid.id hnd hx
    rw [hfind, hxy, hyb]

/-- Under QCBS, a non-candidate keeps all its fields; a candidate picks up the
QCBS financial/combined scores and its rank. -/
theorem applyRanked_QCBS (tw fw : ℚ) {evals : List Evaluation} {s : St} {tender_id : Nat}
    (hids : (s.bids.map Bid.id).Nodup) {b : Bid} (hb : b ∈ scoredBids evals s tender_id) :
    (isCandidate b = false → applyRanked (rankedBids .QCBS tw fw evals s tender_id) b = b) ∧
    (isCandidate b = true → ∃ r : Nat,
      applyRanked (rankedBids .QCBS tw fw evals s tender_id) b =
        { qcbsScore tw fw (minAmount ((scoredBids evals s tender_id).filter isCandidate)) b
            with rank := some r }) := by
  constructor
  · intro hnc
    refine applyRanked_of_none ?_
    intro hmem
    have hmem2 : b.id ∈ ((scoredBids evals s tender_id).filter isCandidate).map Bid.id :=
      (rankedBids_QCBS_ids tw fw evals s tender_id).mem_iff.mp hmem
    rcases List.mem_map.mp hmem2 with ⟨y, hy, hyid⟩
    have hyb : y = b := List.inj_on_of_nodup_map (scored_ids_nodup hids)
      (List.mem_of_mem_filter hy) hb hyid
    rw [hyb] at hy
    rw [List.of_mem_filter hy] at hnc
    cases hnc
  · intro hc
    have hbc : b ∈ (scoredBids evals s tender_id).filter isCandidate :=
      List.mem_filter.mpr ⟨hb, hc⟩
    have hmem : b.id ∈ (rankedBids .QCBS tw fw evals s tender_id).map Bid.id :=
      (rankedBids_QCBS_ids tw fw evals s tender_id).mem_iff.mpr
        (List.mem_map_of_mem Bid.id hbc)
    rcases List.mem_map.mp hmem with ⟨x, hx, hxid⟩
    rcases mem_rankUpdates_QCBS hx with ⟨y, hy, -, r, hxy⟩
    have hyid : y.id = b.id := by
      rw [hxy] at hxid
      exact hxid
    have hyb : y = b := List.inj_on_of_nodup_map (scored_ids_nodup hids) hy hb hyid
    refine ⟨r, ?_⟩
    unfold applyRanked
    have hfind : (rankedBids .QCBS tw fw evals s tender_id).find?
        (fun r2 => decide (r2.id = b.id)) = some x := by
      rw [← hxid]
      have hnd : ((rankedBids .QCBS tw fw evals s tender_id).map Bid.id).Nodup :=
        (rankedBids_QCBS_ids tw fw evals s tender_id).nodup_iff.mpr (cands_ids_nodup hids)
      exact find?_key_of_mem Bid.id hnd hx
    rw [hfind, hxy, hyb]

theorem applyRanked_L2 (tw fw : ℚ) (evals : List Evaluation) (s : St) (tender_id : Nat)
    (b : Bid) : applyRanked (rankedBids .L2 tw fw evals s tender_id) b = b := rfl

/-! ### C5: there is no tender-status gate on ranking -/

/-- C5 counterexample: fixture B's tender is in status DRAFT (not
UNDER_EVALUATION), yet calculate_evaluation succeeds instead of failing
with an InvalidState error — the endpoint never reads tender.status. -/
theorem ranking_status_gate_counterexample :
    exStB.tenders = [{ id := 1, status := TenderStatus.draft }] ∧
    TenderStatus.draft ≠ TenderStatus.underEvaluation ∧
    exceptOk (calculate_evaluation .T1 (7/10) (3/10) [] exStB 1) = true :=
  ⟨rfl, by decide, by decide⟩

/-- C5 amended: calculate_evaluation performs no tender-status check at all —
whenever the tender exists (whatever its status) and has at least one
submitted bid, the ranking run succeeds. -/
theorem calculate_no_status_gate (etype : EvaluationType) (tw fw : ℚ)
    (evals : List Evaluation) (s : St) (tender_id : Nat) (t : Tender)
    (hf : s.tenders.find? (fun x => decide (x.id = tender_id)) = some t)
    (hne : (submittedBids s tender_id).isEmpty = false) :
    exceptOk (calculate_evaluation etype tw fw evals s tender_id) = true := by
  unfold calculate_evaluation
  rw [hf, if_neg (by rw [hne]; exact Bool.false_ne_true)]
  rfl

/-- Witness for the amended C5, on the DRAFT-status fixture B. -/
theorem calculate_no_status_gate_witness :
    exStB.tenders.find? (fun x => decide (x.id = 1)) =
      some { id := 1, status := TenderStatus.draft } ∧
    (submittedBids exStB 1).isEmpty = false ∧
    exceptOk (calculate_evaluation .L1 (7/10) (3/10) [] exStB 1) = true :=
  ⟨by decide, by decide,
    calculate_no_status_gate .L1 (7/10) (3/10) [] exStB 1
      { id := 1, status := TenderStatus.draft } (by decide) (by decide)⟩

/-! ### C6: error exactly when no submitted bids exist -/

/-- C6: with the tender present, a ranking run fails if and only if the
tender has zero submitted bids; when submitted bids exist but the method's
candidate set is empty (L1/QCBS with no qualified priced bid), the run
succeeds with an empty rankings list. -/
theorem empty_candidate_set_ok (etype : EvaluationType) (tw fw : ℚ)
    (evals : List Evaluation) (s : St) (tender_id : Nat) (t : Tender)
    (hf : s.tenders.find? (fun x => decide (x.id = tender_id)) = some t) :
    ((∃ e, calculate_evaluation etype tw fw evals s tender_id = Except.error e) ↔
      submittedBids s tender_id = []) ∧
    (∀ s2 res, calculate_evaluation etype tw fw evals s tender_id = Except.ok (s2, res) →
      (etype = .L1 ∨ etype = .QCBS) →
      (scoredBids evals s tender_id).filter isCandidate = [] →
      res.rankings = []) := by
  constructor
  · constructor
    · rintro ⟨e, he⟩
      unfold calculate_evaluation at he
      rw [hf] at he
      by_cases hemp : (submittedBids s tender_id).isEmpty = true
      · exact List.isEmpty_iff.mp hemp
      · rw [if_neg hemp] at he
        cases he
    · intro hnil
      refine ⟨.badRequest, ?_⟩
      unfold calculate_evaluation
      rw [hf, if_pos (by rw [hnil]; rfl)]
  · intro s2 res hok hLQ hcands
    obtain ⟨-, hres, -, -⟩ := calculate_evaluation_ok hok
    rw [hres]
    show (rankedBids etype tw fw evals s tender_id).map (toRanking etype) = []
    rcases hLQ with h | h
    · subst h
      unfold rankedBids
      rw [rankUpdates_L1_def, hcands]
      rfl
    · subst h
      unfold rankedBids
      rw [rankUpdates_QCBS_def, hcands]
      rfl

/-- Witness for C6: fixture B has one submitted bid with no scores, so the
L1 candidate set is empty, yet the run is not an error and returns no
rankings. -/
theorem empty_candidate_set_ok_witness :
    exStB.tenders.find? (fun x => decide (x.id = 1)) =
      some { id := 1, status := TenderStatus.draft } ∧
    (((∃ e, calculate_evaluation .L1 (7/10) (3/10) [] exStB 1 = Except.error e) ↔
      submittedBids exStB 1 = []) ∧
    (∀ s2 res, calculate_evaluation .L1 (7/10) (3/10) [] exStB 1 = Except.ok (s2, res) →
      (EvaluationType.L1 = .L1 ∨ EvaluationType.L1 = .QCBS) →
      (scoredBids [] exStB 1).filter isCandidate = [] →
      res.rankings = [])) :=
  ⟨by decide, empty_candidate_set_ok .L1 (7/10) (3/10) [] exStB 1
    { id := 1, status := TenderStatus.draft } (by decide)⟩

/-! ### C7: unscored bids in the technical ranking -/

theorem mem_enumFrom_of_mem {α : Type} {b : α} {l : List α} (h : b ∈ l) (n : Nat) :
    ∃ i : Nat, (i, b) ∈ List.enumFrom n l := by
  induction l generalizing n with
  | nil => cases h
  | cons x xs ih =>
    rcases List.mem_cons.mp h with h1 | h1
    · refine ⟨n, ?_⟩
      rw [h1]
      simp [List.enumFrom]
    · rcases ih h1 (n + 1) with ⟨i, hi⟩
      refine ⟨i, ?_⟩
      simp only [List.enumFrom]
      exact List.mem_cons_of_mem _ hi

/-- C7 counterexample: in fixture B the only bid has zero ScoreEntries, yet
the T1 ranking output contains it (bid id 1 is listed), refuting the claim
that an unscored bid does not appear in the T1 ranking output. -/
theorem unscored_excluded_counterexample :
    evalsFor ([] : List Evaluation) 1 = [] ∧
    rankedIdsOf (calculate_evaluation .T1 (7/10) (3/10) [] exStB 1) = [1] :=
  ⟨rfl, by decide⟩

/-- C7 amended: a submitted bid with zero ScoreEntries keeps its
technical_score unchanged — left None if it was None, never set to 0 — but it
IS included in the T1 ranking (T1 ranks all submitted bids, ordering a NULL
score as 0): it appears in the rankings output reporting its stored
technical_score, and the persisted row keeps its technical_score and gains a
rank. -/
theorem unscored_bid_T1 (tw fw : ℚ) (evals : List Evaluation) (s : St) (tender_id : Nat)
    (s2 : St) (res : EvalResult) (b : Bid)
    (hids : (s.bids.map Bid.id).Nodup)
    (hok : calculate_evaluation .T1 tw fw evals s tender_id = Except.ok (s2, res))
    (hb : b ∈ submittedBids s tender_id) (hempty : evalsFor evals b.id = []) :
    scoreBid evals b = b ∧
    (∃ r ∈ res.rankings, r.bid_id = b.id ∧ r.technical_score = b.technical_score) ∧
    (∃ b2 ∈ s2.bids, b2.id = b.id ∧ b2.technical_score = b.technical_score ∧
      ∃ rk : Nat, b2.rank = some rk) := by
  have hsb : scoreBid evals b = b := scoreBid_of_empty (by rw [hempty]; rfl)
  obtain ⟨hs2, hres, -, -⟩ := calculate_evaluation_ok hok
  have hbs : b ∈ scoredBids evals s tender_id := List.mem_map.mpr ⟨b, hb, hsb⟩
  refine ⟨hsb, ?_, ?_⟩
  · have hbsort : b ∈ stableSort (fun a c => decide (keyT1 c ≤ keyT1 a))
        (scoredBids evals s tender_id) := (mem_stableSort _ _ _).mpr hbs
    rcases mem_enumFrom_of_mem hbsort 1 with ⟨i, hi⟩
    have hr : toRanking .T1 ({ b with rank := some i } : Bid) ∈ res.rankings := by
      rw [hres]
      show _ ∈ (rankedBids .T1 tw fw evals s tender_id).map (toRanking .T1)
      refine List.mem_map_of_mem _ ?_
      unfold rankedBids
      rw [rankUpdates_T1_def]
      exact List.mem_map.mpr ⟨(i, b), hi, rfl⟩
    exact ⟨_, hr, rfl, rfl⟩
  · rcases applyRanked_T1 tw fw hids hbs with ⟨r, hr⟩
    refine ⟨{ b with rank := some r }, ?_, rfl, rfl, r, rfl⟩
    rw [hs2]
    show _ ∈ newBidsAfterCalc .T1 tw fw evals s tender_id
    unfold newBidsAfterCalc
    refine List.mem_map.mpr ⟨b, List.mem_of_mem_filter hb, ?_⟩
    have hsubm : isSubmittedOf tender_id b = true := List.of_mem_filter hb
    rw [if_pos hsubm, hsb, hr]

/-- Witness for the amended C7, on fixture B (one unscored submitted bid);
the concrete T1 output is fixture B2. -/
theorem unscored_bid_T1_witness :
    (exStB.bids.map Bid.id).Nodup ∧
    calculate_evaluation .T1 (7/10) (3/10) [] exStB 1 = Except.ok (exStB2, exResB) ∧
    scoreBid [] { id := 1, tender_id := 1, status := .submitted } =
      { id := 1, tender_id := 1, status := .submitted } ∧
    (∃ r ∈ exResB.rankings, r.bid_id = 1 ∧ r.technical_score = none) ∧
    (∃ b2 ∈ exStB2.bids, b2.id = 1 ∧ b2.technical_score = none ∧
      ∃ rk : Nat, b2.rank = some rk) := by
  refine ⟨by decide, by decide, ?_⟩
  have h := unscored_bid_T1 (7/10) (3/10) [] exStB 1 exStB2 exResB
    { id := 1, tender_id := 1, status := .submitted } (by decide) (by decide)
    (by decide) (by decide)
  exact h

/-- The branch mutation only ever writes rank, financial_score and
combined_score: id, tender_id, status, financial_amount, technical_score and
is_qualified pass through untouched for every method. -/
theorem applyRanked_keeps (etype : EvaluationType) (tw fw : ℚ) (evals : List Evaluation)
    (s : St) (tender_id : Nat) (hids : (s.bids.map Bid.id).Nodup) {x : Bid}
    (hx : x ∈ scoredBids evals s tender_id) :
    (applyRanked (rankedBids etype tw fw evals s tender_id) x).id = x.id ∧
    (applyRanked (rankedBids etype tw fw evals s tender_id) x).tender_id = x.tender_id ∧
    (applyRanked (rankedBids etype tw fw evals s tender_id) x).status = x.status ∧
    (applyRanked (rankedBids etype tw fw evals s tender_id) x).financial_amount =
      x.financial_amount ∧
    (applyRanked (rankedBids etype tw fw evals s tender_id) x).technical_score =
      x.technical_score ∧
    (applyRanked (rankedBids etype tw fw evals s tender_id) x).is_qualified =
      x.is_qualified := by
  cases etype with
  | T1 =>
    rcases applyRanked_T1 tw fw hids hx with ⟨r, hr⟩
    rw [hr]
    exact ⟨rfl, rfl, rfl, rfl, rfl, rfl⟩
  | L1 =>
    by_cases hc : isCandidate x = true
    · rcases (applyRanked_L1 tw fw hids hx).2 hc with ⟨r, hr⟩
      rw [hr]
      exact ⟨rfl, rfl, rfl, rfl, rfl, rfl⟩
    · rw [(applyRanked_L1 tw fw hids hx).1 (Bool.eq_false_iff.mpr hc)]
      exact ⟨rfl, rfl, rfl, rfl, rfl, rfl⟩
  | QCBS =>
    by_cases hc : isCandidate x = true
    · rcases (applyRanked_QCBS tw fw hids hx).2 hc with ⟨r, hr⟩
      rw [hr]
      exact ⟨rfl, rfl, rfl, rfl, rfl, rfl⟩
    · rw [(applyRanked_QCBS tw fw hids hx).1 (Bool.eq_false_iff.mpr hc)]
      exact ⟨rfl, rfl, rfl, rfl, rfl, rfl⟩
  | L2 =>
    rw [applyRanked_L2]
    exact ⟨rfl, rfl, rfl, rfl, rfl, rfl⟩

/-! ### C4: the qualification gate -/

/-- C4: on every successful ranking run and for every submitted bid of the
tender: if the bid has at least one ScoreEntry, its persisted
technical_score is the weighted aggregate and is_qualified is true exactly
when that aggregate is at least the fixed threshold 60; if it has none, its
technical_score and is_qualified are left untouched — so a bid with no
aggregated score (fresh row, both fields NULL) is never marked qualified.
Gate evaluation is a total function of the score rows (it is evaluated
inside a run that succeeds whether or not score data exists), so absence of
data resolves to remaining disqualified, not to an error. -/
theorem qualification_gate (etype : EvaluationType) (tw fw : ℚ)
    (evals : List Evaluation) (s : St) (tender_id : Nat) (s2 : St) (res : EvalResult)
    (b : Bid) (hids : (s.bids.map Bid.id).Nodup)
    (hok : calculate_evaluation etype tw fw evals s tender_id = Except.ok (s2, res))
    (hb : b ∈ submittedBids s tender_id) :
    (evalsFor evals b.id ≠ [] →
      ∃ b2 ∈ s2.bids, b2.id = b.id ∧
        b2.technical_score = some (totalScore (evalsFor evals b.id)) ∧
        (b2.is_qualified = some true ↔ 60 ≤ totalScore (evalsFor evals b.id))) ∧
    (evalsFor evals b.id = [] →
      ∃ b2 ∈ s2.bids, b2.id = b.id ∧ b2.technical_score = b.technical_score ∧
        b2.is_qualified = b.is_qualified) := by
  obtain ⟨hs2, -, -, -⟩ := calculate_evaluation_ok hok
  have hsubm : isSubmittedOf tender_id b = true := List.of_mem_filter hb
  have hscored : scoreBid evals b ∈ scoredBids evals s tender_id :=
    List.mem_map_of_mem (scoreBid evals) hb
  have hmem : applyRanked (rankedBids etype tw fw evals s tender_id) (scoreBid evals b) ∈
      s2.bids := by
    rw [hs2]
    show _ ∈ newBidsAfterCalc etype tw fw evals s tender_id
    unfold newBidsAfterCalc
    refine List.mem_map.mpr ⟨b, List.mem_of_mem_filter hb, ?_⟩
    rw [if_pos hsubm]
  obtain ⟨hkid, -, -, -, hkts, hkq⟩ :=
    applyRanked_keeps etype tw fw evals s tender_id hids hscored
  constructor
  · intro hne
    have hemp : ¬ (evalsFor evals b.id).isEmpty = true := by
      rw [List.isEmpty_iff]
      exact hne
    refine ⟨_, hmem, ?_, ?_, ?_⟩
    · rw [hkid, (scoreBid_untouched evals b).1]
    · rw [hkts, scoreBid_of_nonempty hemp]
    · rw [hkq, scoreBid_of_nonempty hemp]
      simp
  · intro hnil
    have hemp : (evalsFor evals b.id).isEmpty = true := by
      rw [hnil]
      rfl
    refine ⟨_, hmem, ?_, ?_, ?_⟩
    · rw [hkid, (scoreBid_untouched evals b).1]
    · rw [hkts, scoreBid_of_empty hemp]
    · rw [hkq, scoreBid_of_empty hemp]

/-- Witness for C4 on fixture A: bid 1 is scored 80 with weight 1 (a
non-empty ScoreEntry set), exercised on the T1 run, which does succeed. -/
theorem qualification_gate_witness :
    (exStA.bids.map Bid.id).Nodup ∧
    evalsFor exEvalsA 1 ≠ [] ∧
    exceptOk (calculate_evaluation .T1 (7/10) (3/10) exEvalsA exStA 1) = true ∧
    (match calculate_evaluation .T1 (7/10) (3/10) exEvalsA exStA 1 with
      | .ok (s2, _) =>
        ∃ b2 ∈ s2.bids, b2.id = 1 ∧
          b2.technical_score = some (totalScore (evalsFor exEvalsA 1)) ∧
          (b2.is_qualified = some true ↔ 60 ≤ totalScore (evalsFor exEvalsA 1))
      | .error _ => True) := by
  refine ⟨by decide, by decide, by decide, ?_⟩
  rcases hok : calculate_evaluation .T1 (7/10) (3/10) exEvalsA exStA 1 with e | p
  · trivial
  · rcases p with ⟨s2, res⟩
    exact (qualification_gate .T1 (7/10) (3/10) exEvalsA exStA 1 s2 res
      { id := 1, tender_id := 1, status := .submitted, financial_amount := some 100 }
      (by decide) hok (by decide)).1 (by decide)

/-! ### C3: QCBS financial normalization and combined score -/

theorem foldl_min_le_init (init : ℚ) (xs : List ℚ) : xs.foldl min init ≤ init := by
  induction xs generalizing init with
  | nil => exact le_refl init
  | cons x xs ih => exact (ih (min init x)).trans (min_le_left init x)

theorem foldl_min_le_mem (init : ℚ) (xs : List ℚ) : ∀ x ∈ xs, xs.foldl min init ≤ x := by
  induction xs generalizing init with
  | nil => intro x hx; cases hx
  | cons y ys ih =>
    intro x hx
    rcases List.mem_cons.mp hx with h1 | h1
    · rw [h1, List.foldl_cons]
      exact (foldl_min_le_init (min init y) ys).trans (min_le_right init y)
    · rw [List.foldl_cons]
      exact ih (min init y) x h1

theorem foldl_min_mem (init : ℚ) (xs : List ℚ) :
    xs.foldl min init = init ∨ xs.foldl min init ∈ xs := by
  induction xs generalizing init with
  | nil => exact Or.inl rfl
  | cons y ys ih =>
    rcases ih (min init y) with h | h
    · rcases le_total init y with hle | hle
      · rw [List.foldl_cons, h, min_eq_left hle]
        exact Or.inl rfl
      · rw [List.foldl_cons, h, min_eq_right hle]
        exact Or.inr (List.mem_cons_self y ys)
    · exact Or.inr (List.mem_cons_of_mem y h)

theorem minAmount_foldl (b : Bid) (bs : List Bid) :
    minAmount (b :: bs) = (bs.map keyL1).foldl min (keyL1 b) := by
  unfold minAmount
  rw [List.foldl_map]

/-- min_amount is a lower bound of the candidate amounts. -/
theorem minAmount_le {l : List Bid} : ∀ c ∈ l, minAmount l ≤ keyL1 c := by
  cases l with
  | nil => intro c hc; cases hc
  | cons b bs =>
    intro c hc
    rw [minAmount_foldl]
    rcases List.mem_cons.mp hc with h1 | h1
    · rw [h1]
      exact foldl_min_le_init (keyL1 b) (bs.map keyL1)
    · exact foldl_min_le_mem (keyL1 b) (bs.map keyL1) (keyL1 c)
        (List.mem_map_of_mem keyL1 h1)

/-- min_amount is attained by some candidate. -/
theorem minAmount_mem {l : List Bid} (h : l ≠ []) : minAmount l ∈ l.map keyL1 := by
  cases l with
  | nil => exact absurd rfl h
  | cons b bs =>
    rw [minAmount_foldl]
    rcases foldl_min_mem (keyL1 b) (bs.map keyL1) with h1 | h1
    · rw [h1, List.map_cons]
      exact List.mem_cons_self _ _
    · rw [List.map_cons]
      exact List.mem_cons_of_mem _ h1

theorem famountTruthy_getD {b : Bid} (h : famountTruthy b = true) :
    b.financial_amount.getD 0 ≠ 0 := by
  unfold famountTruthy at h
  cases hf : b.financial_amount with
  | none =>
    rw [hf] at h
    cases h
  | some a =>
    rw [hf] at h
    simpa using of_decide_eq_true h

/-- C3: on every successful QCBS run, every candidate bid (qualified after
the score loop, with a truthy financial amount) is persisted with
financial_score = min_amount / amount × 100 — exactly, with no rounding in
the endpoint (exact-rational model of the float arithmetic) — and
combined_score = technical_score × technical_weight + financial_score ×
financial_weight, the caller-supplied weights being used as given (FastAPI
validates each into [0,1]; nothing renormalizes them).  min_amount is the
least candidate amount and is attained, so a bid whose amount equals
min_amount — in particular the cheapest candidate — scores exactly 100. -/
theorem qcbs_scores (tw fw : ℚ) (evals : List Evaluation) (s : St) (tender_id : Nat)
    (s2 : St) (res : EvalResult) (b : Bid)
    (hids : (s.bids.map Bid.id).Nodup)
    (hok : calculate_evaluation .QCBS tw fw evals s tender_id = Except.ok (s2, res))
    (hb : b ∈ submittedBids s tender_id)
    (hc : isCandidate (scoreBid evals b) = true)
    (htw : 0 ≤ tw ∧ tw ≤ 1) (hfw : 0 ≤ fw ∧ fw ≤ 1) :
    (∃ b2 ∈ s2.bids, b2.id = b.id ∧
      b2.financial_amount = b.financial_amount ∧
      b2.financial_score = some
        (minAmount ((scoredBids evals s tender_id).filter isCandidate) /
          b.financial_amount.getD 0 * 100) ∧
      b2.combined_score = some (b2.technical_score.getD 0 * tw +
        minAmount ((scoredBids evals s tender_id).filter isCandidate) /
          b.financial_amount.getD 0 * 100 * fw) ∧
      (b.financial_amount.getD 0 =
          minAmount ((scoredBids evals s tender_id).filter isCandidate) →
        b2.financial_score = some 100)) ∧
    (∀ c ∈ (scoredBids evals s tender_id).filter isCandidate,
      minAmount ((scoredBids evals s tender_id).filter isCandidate) ≤ keyL1 c) ∧
    (minAmount ((scoredBids evals s tender_id).filter isCandidate) ∈
      ((scoredBids evals s tender_id).filter isCandidate).map keyL1) := by
  obtain ⟨hs2, -, -, -⟩ := calculate_evaluation_ok hok
  have hsubm : isSubmittedOf tender_id b = true := List.of_mem_filter hb
  have hscored : scoreBid evals b ∈ scoredBids evals s tender_id :=
    List.mem_map_of_mem (scoreBid evals) hb
  have hmem : applyRanked (rankedBids .QCBS tw fw evals s tender_id) (scoreBid evals b) ∈
      s2.bids := by
    rw [hs2]
    show _ ∈ newBidsAfterCalc .QCBS tw fw evals s tender_id
    unfold newBidsAfterCalc
    refine List.mem_map.mpr ⟨b, List.mem_of_mem_filter hb, ?_⟩
    rw [if_pos hsubm]
  rcases (applyRanked_QCBS tw fw hids hscored).2 hc with ⟨r, hr⟩
  have hamt : (scoreBid evals b).financial_amount = b.financial_amount :=
    (scoreBid_untouched evals b).2.2.2.1
  have hne : b.financial_amount.getD 0 ≠ 0 := by
    have h2 := famountTruthy_getD (Bool.and_elim_right hc)
    rw [hamt] at h2
    exact h2
  have hcne : (scoredBids evals s tender_id).filter isCandidate ≠ [] := by
    intro hnil
    have hm := List.mem_filter.mpr ⟨hscored, hc⟩
    rw [hnil] at hm
    cases hm
  refine ⟨⟨applyRanked (rankedBids .QCBS tw fw evals s tender_id) (scoreBid evals b),
    hmem, ?_, ?_, ?_, ?_, ?_⟩, minAmount_le, minAmount_mem hcne⟩
  · rw [hr]
    exact (scoreBid_untouched evals b).1
  · rw [hr]
    exact hamt
  · rw [hr]
    show some (minAmount ((scoredBids evals s tender_id).filter isCandidate) /
        (scoreBid evals b).financial_amount.getD 0 * 100) = _
    rw [hamt]
  · rw [hr]
    show some ((scoreBid evals b).technical_score.getD 0 * tw +
        minAmount ((scoredBids evals s tender_id).filter isCandidate) /
          (scoreBid evals b).financial_amount.getD 0 * 100 * fw) =
      some ((scoreBid evals b).technical_score.getD 0 * tw +
        minAmount ((scoredBids evals s tender_id).filter isCandidate) /
          b.financial_amount.getD 0 * 100 * fw)
    rw [hamt]
  · intro heq
    rw [hr]
    show some (minAmount ((scoredBids evals s tender_id).filter isCandidate) /
        (scoreBid evals b).financial_amount.getD 0 * 100) = some 100
    rw [hamt, ← heq, div_self hne, one_mul]

/-- Witness for C3 on fixture C with weights 1 and 0 (each in the unit
interval), at bid 2, the cheapest candidate (amount 90). -/
theorem qcbs_scores_witness :
    (exStC.bids.map Bid.id).Nodup ∧
    exBidC2 ∈ submittedBids exStC 1 ∧
    isCandidate (scoreBid [] exBidC2) = true ∧
    ((0 : ℚ) ≤ 1 ∧ (1 : ℚ) ≤ 1) ∧ ((0 : ℚ) ≤ 0 ∧ (0 : ℚ) ≤ 1) ∧
    exceptOk (calculate_evaluation .QCBS 1 0 [] exStC 1) = true ∧
    (match calculate_evaluation .QCBS 1 0 [] exStC 1 with
      | .ok (s2, _) =>
        ∃ b2 ∈ s2.bids, b2.id = 2 ∧
          b2.financial_amount = some 90 ∧
          b2.financial_score = some
            (minAmount ((scoredBids [] exStC 1).filter isCandidate) / (90 : ℚ) * 100) ∧
          b2.combined_score = some (b2.technical_score.getD 0 * 1 +
            minAmount ((scoredBids [] exStC 1).filter isCandidate) / (90 : ℚ) * 100 * 0) ∧
          ((90 : ℚ) = minAmount ((scoredBids [] exStC 1).filter isCandidate) →
            b2.financial_score = some 100)
      | .error _ => True) := by
  refine ⟨by decide, by decide, by decide, by decide, by decide, by decide, ?_⟩
  rcases hok : calculate_evaluation .QCBS 1 0 [] exStC 1 with e | p
  · trivial
  · rcases p with ⟨s2, res⟩
    exact (qcbs_scores 1 0 [] exStC 1 s2 res exBidC2
      (by decide) hok (by decide) (by decide) (by decide) (by decide)).1

/-! ### C9: the comparative statement -/

/-- C9 counterexample: fixture E's only bid is AWARDED — a status that is
neither draft nor withdrawn — yet the comparative statement lists no bids,
because the query keeps only SUBMITTED/QUALIFIED/SHORTLISTED statuses. -/
theorem comparative_statuses_counterexample :
    exStE.bids.map Bid.status = [BidStatus.awarded] ∧
    BidStatus.awarded ≠ BidStatus.draft ∧
    BidStatus.awarded ≠ BidStatus.withdrawn ∧
    (match get_comparative_statement exStE 1 with
      | .ok stmt => stmt.bids.map BidComparison.bid_id
      | .error _ => [42]) = [] := by decide

/-- C9 amended: the comparative statement includes exactly the tender's bids
whose status is SUBMITTED, QUALIFIED or SHORTLISTED (not every non-draft,
non-withdrawn status: UNDER_REVIEW, DISQUALIFIED, AWARDED and REJECTED bids
are excluded too), and it is read-only with respect to derived state: the
endpoint issues no write, and every listed entry reports verbatim the
persisted technical/financial/combined scores, rank and qualification flag
of its stored row. -/
theorem comparative_statement_spec (s : St) (tender_id : Nat) (t : Tender)
    (hf : s.tenders.find? (fun x => decide (x.id = tender_id)) = some t) :
    ∃ stmt, get_comparative_statement s tender_id = Except.ok stmt ∧
      (∀ c ∈ stmt.bids, ∃ b ∈ s.bids, b.tender_id = tender_id ∧
        (b.status = BidStatus.submitted ∨ b.status = BidStatus.qualified ∨
          b.status = BidStatus.shortlisted) ∧ c = toComparison b) ∧
      (∀ b ∈ s.bids, b.tender_id = tender_id →
        (b.status = BidStatus.submitted ∨ b.status = BidStatus.qualified ∨
          b.status = BidStatus.shortlisted) → toComparison b ∈ stmt.bids) := by
  unfold get_comparative_statement
  rw [hf]
  refine ⟨_, rfl, ?_, ?_⟩
  · intro c hc
    rcases List.mem_map.mp hc with ⟨b, hbs, hbc⟩
    rw [mem_stableSort] at hbs
    have h1 : isComparable tender_id b = true := List.of_mem_filter hbs
    unfold isComparable at h1
    have hprops := of_decide_eq_true h1
    exact ⟨b, List.mem_of_mem_filter hbs, hprops.1, hprops.2, hbc.symm⟩
  · intro b hb htid hst
    refine List.mem_map_of_mem toComparison ?_
    rw [mem_stableSort]
    have h1 : isComparable tender_id b = true := by
      unfold isComparable
      exact decide_eq_true ⟨htid, hst⟩
    exact List.mem_filter.mpr ⟨hb, h1⟩

/-- Witness for the amended C9 on fixture C (two submitted bids). -/
theorem comparative_statement_spec_witness :
    exStC.tenders.find? (fun x => decide (x.id = 1)) =
      some { id := 1, status := TenderStatus.underEvaluation } ∧
    (∃ stmt, get_comparative_statement exStC 1 = Except.ok stmt ∧
      (∀ c ∈ stmt.bids, ∃ b ∈ exStC.bids, b.tender_id = 1 ∧
        (b.status = BidStatus.submitted ∨ b.status = BidStatus.qualified ∨
          b.status = BidStatus.shortlisted) ∧ c = toComparison b) ∧
      (∀ b ∈ exStC.bids, b.tender_id = 1 →
        (b.status = BidStatus.submitted ∨ b.status = BidStatus.qualified ∨
          b.status = BidStatus.shortlisted) → toComparison b ∈ stmt.bids)) :=
  ⟨by decide, comparative_statement_spec exStC 1
    { id := 1, status := TenderStatus.underEvaluation } (by decide)⟩

/-! ### C10: frame of a ranking run -/

theorem forall₂_map_self {α β : Type} {Q : α → β → Prop} (f : α → β) (l : List α)
    (h : ∀ a ∈ l, Q a (f a)) : List.Forall₂ Q l (l.map f) := by
  induction l with
  | nil => exact List.Forall₂.nil
  | cons x xs ih =>
    exact List.Forall₂.cons (h x (List.mem_cons_self x xs))
      (ih (fun a ha => h a (List.mem_cons_of_mem x ha)))

/-- C10: a ranking run only writes derived fields on the bids in its
computation.  Row-by-row against the prior table: a bid that is not a
SUBMITTED bid of the tender is untouched entirely; a submitted bid keeps its
identity/status/amount, keeps technical_score and is_qualified unless it has
ScoreEntries, keeps rank (and the financial/combined scores) under L1/QCBS
unless it is in the candidate set, keeps all three derived fields under L2,
and never has financial/combined scores written outside QCBS.  Nothing is
ever cleared, so stale ranks survive later runs: concretely, running T1 and
then L1 on fixture F leaves bids 1 and 2 both carrying rank 1. -/
theorem ranking_frame_effect (etype : EvaluationType) (tw fw : ℚ)
    (evals : List Evaluation) (s : St) (tender_id : Nat) (s2 : St) (res : EvalResult)
    (hids : (s.bids.map Bid.id).Nodup)
    (hok : calculate_evaluation etype tw fw evals s tender_id = Except.ok (s2, res)) :
    List.Forall₂ (fun b b2 =>
      (¬ (b.tender_id = tender_id ∧ b.status = BidStatus.submitted) → b2 = b) ∧
      ((b.tender_id = tender_id ∧ b.status = BidStatus.submitted) →
        b2.id = b.id ∧ b2.tender_id = b.tender_id ∧ b2.status = b.status ∧
        b2.financial_amount = b.financial_amount ∧
        (evalsFor evals b.id = [] →
          b2.technical_score = b.technical_score ∧ b2.is_qualified = b.is_qualified) ∧
        ((etype = .L1 ∨ etype = .QCBS) → isCandidate (scoreBid evals b) = false →
          b2.rank = b.rank ∧ b2.financial_score = b.financial_score ∧
          b2.combined_score = b.combined_score) ∧
        (etype = .L2 →
          b2.rank = b.rank ∧ b2.financial_score = b.financial_score ∧
          b2.combined_score = b.combined_score) ∧
        ((etype = .L1 ∨ etype = .T1 ∨ etype = .L2) →
          b2.financial_score = b.financial_score ∧
          b2.combined_score = b.combined_score)))
      s.bids s2.bids ∧
    (calculate_evaluation .T1 (7/10) (3/10) [] exStF 1 = Except.ok (exStF1, exResF1) ∧
     calculate_evaluation .L1 (7/10) (3/10) [] exStF1 1 = Except.ok (exStF2, exResF2) ∧
     (exStF2.bids.filter (fun b => decide (b.rank = some 1))).length = 2 ∧
     (exStF2.bids.map Bid.tender_id) = [1, 1]) := by
  refine ⟨?_, by decide, by decide, by decide, by decide⟩
  obtain ⟨hs2, -, -, -⟩ := calculate_evaluation_ok hok
  rw [hs2]
  show List.Forall₂ _ s.bids (newBidsAfterCalc etype tw fw evals s tender_id)
  unfold newBidsAfterCalc
  refine forall₂_map_self _ s.bids (fun b hb => ?_)
  by_cases hP : b.tender_id = tender_id ∧ b.status = BidStatus.submitted
  · have hsubm : isSubmittedOf tender_id b = true := decide_eq_true hP
    rw [if_pos hsubm]
    have hbsub : b ∈ submittedBids s tender_id := List.mem_filter.mpr ⟨hb, hsubm⟩
    have hscored : scoreBid evals b ∈ scoredBids evals s tender_id :=
      List.mem_map_of_mem (scoreBid evals) hbsub
    obtain ⟨hkid, hktid, hkst, hkfa, hkts, hkq⟩ :=
      applyRanked_keeps etype tw fw evals s tender_id hids hscored
    obtain ⟨huid, hutid, hust, hufa, hufs, hucs, hurk⟩ := scoreBid_untouched evals b
    refine ⟨fun hc => absurd hP hc, fun _ => ⟨?_, ?_, ?_, ?_, ?_, ?_, ?_, ?_⟩⟩
    · rw [hkid, huid]
    · rw [hktid, hutid]
    · rw [hkst, hust]
    · rw [hkfa, hufa]
    · intro hnil
      have hemp : (evalsFor evals b.id).isEmpty = true := by
        rw [hnil]
        rfl
      constructor
      · rw [hkts, scoreBid_of_empty hemp]
      · rw [hkq, scoreBid_of_empty hemp]
    · intro hLQ hnc
      have hnc2 : ¬ isCandidate (scoreBid evals b) = true := Bool.eq_false_iff.mp hnc ∘ id
      rcases hLQ with h | h
      · subst h
        rw [(applyRanked_L1 tw fw hids hscored).1 hnc]
        exact ⟨hurk, hufs, hucs⟩
      · subst h
        rw [(applyRanked_QCBS tw fw hids hscored).1 hnc]
        exact ⟨hurk, hufs, hucs⟩
    · intro h
      subst h
      rw [applyRanked_L2]
      exact ⟨hurk, hufs, hucs⟩
    · intro hLTL
      rcases hLTL with h | h | h
      · subst h
        by_cases hc : isCandidate (scoreBid evals b) = true
        · rcases (applyRanked_L1 tw fw hids hscored).2 hc with ⟨r, hr⟩
          rw [hr]
          exact ⟨hufs, hucs⟩
        · rw [(applyRanked_L1 tw fw hids hscored).1 (Bool.eq_false_iff.mpr hc)]
          exact ⟨hufs, hucs⟩
      · subst h
        rcases applyRanked_T1 tw fw hids hscored with ⟨r, hr⟩
        rw [hr]
        exact ⟨hufs, hucs⟩
      · subst h
        rw [applyRanked_L2]
        exact ⟨hufs, hucs⟩
  · have hsubm : isSubmittedOf tender_id b = false := decide_eq_false hP
    rw [if_neg (by rw [hsubm]; exact Bool.false_ne_true)]
    exact ⟨fun _ => rfl, fun hc => absurd hc hP⟩

/-- Witness for C10: the frame property at the T1 run on fixture F, whose
output is fixture F1. -/
theorem ranking_frame_effect_witness :
    (exStF.bids.map Bid.id).Nodup ∧
    calculate_evaluation .T1 (7/10) (3/10) [] exStF 1 = Except.ok (exStF1, exResF1) ∧
    List.Forall₂ (fun b b2 =>
      (¬ (b.tender_id = 1 ∧ b.status = BidStatus.submitted) → b2 = b) ∧
      ((b.tender_id = 1 ∧ b.status = BidStatus.submitted) →
        b2.id = b.id ∧ b2.tender_id = b.tender_id ∧ b2.status = b.status ∧
        b2.financial_amount = b.financial_amount ∧
        (evalsFor [] b.id = [] →
          b2.technical_score = b.technical_score ∧ b2.is_qualified = b.is_qualified) ∧
        ((EvaluationType.T1 = .L1 ∨ EvaluationType.T1 = .QCBS) →
          isCandidate (scoreBid [] b) = false →
          b2.rank = b.rank ∧ b2.financial_score = b.financial_score ∧
          b2.combined_score = b.combined_score) ∧
        (EvaluationType.T1 = .L2 →
          b2.rank = b.rank ∧ b2.financial_score = b.financial_score ∧
          b2.combined_score = b.combined_score) ∧
        ((EvaluationType.T1 = .L1 ∨ EvaluationType.T1 = .T1 ∨ EvaluationType.T1 = .L2) →
          b2.financial_score = b.financial_score ∧
          b2.combined_score = b.combined_score)))
      exStF.bids exStF1.bids := by
  refine ⟨by decide, by decide, ?_⟩
  exact (ranking_frame_effect .T1 (7/10) (3/10) [] exStF 1 exStF1 exResF1
    (by decide) (by decide)).1

/-! ### C8: idempotence of a ranking run — auxiliary lemmas -/

theorem isCandidate_congr {x y : Bid} (hq : x.is_qualified = y.is_qualified)
    (hf : x.financial_amount = y.financial_amount) : isCandidate x = isCandidate y := by
  unfold isCandidate famountTruthy
  rw [hq, hf]

theorem keyL1_congr {x y : Bid} (h : x.financial_amount = y.financial_amount) :
    keyL1 x = keyL1 y := by
  unfold keyL1
  rw [h]

theorem keyT1_congr {x y : Bid} (h : x.technical_score = y.technical_score) :
    keyT1 x = keyT1 y := by
  unfold keyT1
  rw [h]

theorem foldl_min_congr {g1 g2 : Bid → ℚ} (l : List Bid) (h : ∀ x ∈ l, g1 x = g2 x)
    (i : ℚ) :
    l.foldl (fun m x => min m (g1 x)) i = l.foldl (fun m x => min m (g2 x)) i := by
  induction l generalizing i with
  | nil => rfl
  | cons c cs ih =>
    rw [List.foldl_cons, List.foldl_cons, h c (List.mem_cons_self c cs)]
    exact ih (fun x hx => h x (List.mem_cons_of_mem c hx)) _

theorem minAmount_map_congr (f : Bid → Bid) (l : List Bid)
    (h : ∀ x ∈ l, keyL1 (f x) = keyL1 x) : minAmount (l.map f) = minAmount l := by
  cases l with
  | nil => rfl
  | cons c cs =>
    rw [List.map_cons, minAmount_foldl, minAmount_foldl, List.map_map,
      h c (List.mem_cons_self c cs)]
    have hmc : cs.map (keyL1 ∘ f) = cs.map keyL1 :=
      List.map_congr_left (fun x hx => h x (List.mem_cons_of_mem c hx))
    rw [hmc]

theorem applyRanked_idem {ranked : List Bid} (hnd : (ranked.map Bid.id).Nodup) (x : Bid) :
    applyRanked ranked (applyRanked ranked x) = applyRanked ranked x := by
  rcases hfind : ranked.find? (fun r => decide (r.id = x.id)) with _ | y
  · have hx : applyRanked ranked x = x := by
      unfold applyRanked
      rw [hfind]
    rw [hx]
    exact hx
  · have hx : applyRanked ranked x = y := by
      unfold applyRanked
      rw [hfind]
    rw [hx]
    have hymem : y ∈ ranked := List.mem_of_find?_eq_some hfind
    have hy : ranked.find? (fun r => decide (r.id = y.id)) = some y :=
      find?_key_of_mem Bid.id hnd hymem
    unfold applyRanked
    rw [hy]

theorem rankedBids_ids_nodup (etype : EvaluationType) (tw fw : ℚ)
    (evals : List Evaluation) (s : St) (tender_id : Nat)
    (hids : (s.bids.map Bid.id).Nodup) :
    ((rankedBids etype tw fw evals s tender_id).map Bid.id).Nodup := by
  cases etype with
  | T1 =>
    exact (rankedBids_T1_ids tw fw evals s tender_id).nodup_iff.mpr
      (scored_ids_nodup hids)
  | L1 =>
    exact (rankedBids_L1_ids tw fw evals s tender_id).nodup_iff.mpr
      (cands_ids_nodup hids)
  | QCBS =>
    exact (rankedBids_QCBS_ids tw fw evals s tender_id).nodup_iff.mpr
      (cands_ids_nodup hids)
  | L2 => exact List.Pairwise.nil

theorem scoreBid_of_fixed (evals : List Evaluation) (x : Bid)
    (h : ¬ (evalsFor evals x.id).isEmpty = true →
      x.technical_score = some (totalScore (evalsFor evals x.id)) ∧
      x.is_qualified = some (decide (60 ≤ totalScore (evalsFor evals x.id)))) :
    scoreBid evals x = x := by
  by_cases hemp : (evalsFor evals x.id).isEmpty = true
  · exact scoreBid_of_empty hemp
  · rw [scoreBid_of_nonempty hemp]
    obtain ⟨h1, h2⟩ := h hemp
    exact Bid.ext_fields rfl rfl rfl rfl (by rw [h1]) rfl rfl rfl (by rw [h2])

theorem scoredBids_submitted (evals : List Evaluation) (s : St) (tender_id : Nat) :
    ∀ z ∈ scoredBids evals s tender_id,
      z.tender_id = tender_id ∧ z.status = BidStatus.submitted := by
  intro z hz
  rcases List.mem_map.mp hz with ⟨b, hb, hbz⟩
  have h1 : isSubmittedOf tender_id b = true := List.of_mem_filter hb
  unfold isSubmittedOf at h1
  obtain ⟨ht, hs⟩ := of_decide_eq_true h1
  obtain ⟨-, hutid, hust, -, -, -, -⟩ := scoreBid_untouched evals b
  rw [← hbz]
  rw [hutid, hust]
  exact ⟨ht, hs⟩

theorem rankedBids_all_submitted (etype : EvaluationType) (tw fw : ℚ)
    (evals : List Evaluation) (s : St) (tender_id : Nat) :
    ∀ y ∈ rankedBids etype tw fw evals s tender_id,
      y.tender_id = tender_id ∧ y.status = BidStatus.submitted := by
  intro y hy
  cases etype with
  | T1 =>
    rcases mem_rankUpdates_T1 hy with ⟨z, hz, r, hyz⟩
    rw [hyz]
    exact scoredBids_submitted evals s tender_id z hz
  | L1 =>
    rcases mem_rankUpdates_L1 hy with ⟨z, hz, -, r, hyz⟩
    rw [hyz]
    exact scoredBids_submitted evals s tender_id z hz
  | QCBS =>
    rcases mem_rankUpdates_QCBS hy with ⟨z, hz, -, r, hyz⟩
    rw [hyz]
    exact scoredBids_submitted evals s tender_id z hz
  | L2 => cases hy

/-- A bid that is a submitted bid of the tender remains one after picking up
its branch mutation. -/
theorem isSubmittedOf_applyRanked (etype : EvaluationType) (tw fw : ℚ)
    (evals : List Evaluation) (s : St) (tender_id : Nat) {x : Bid}
    (hx : isSubmittedOf tender_id x = true) :
    isSubmittedOf tender_id
      (applyRanked (rankedBids etype tw fw evals s tender_id) x) = true := by
  unfold applyRanked
  rcases hfind : (rankedBids etype tw fw evals s tender_id).find?
      (fun r => decide (r.id = x.id)) with _ | y
  · rw [hfind]
    exact hx
  · rw [hfind]
    have hy := rankedBids_all_submitted etype tw fw evals s tender_id y
      (List.mem_of_find?_eq_some hfind)
    unfold isSubmittedOf
    exact decide_eq_true hy

theorem keyQCBS_congr {x y : Bid} (h : x.combined_score = y.combined_score) :
    keyQCBS x = keyQCBS y := by
  unfold keyQCBS
  rw [h]

/-- Sorting a mapped list equals mapping the sorted list when the mapping
does not disturb comparisons between members. -/
theorem stableSort_map_congr (le : Bid → Bid → Bool) (f : Bid → Bid) (l : List Bid)
    (h : ∀ x ∈ l, ∀ y ∈ l, le (f x) (f y) = le x y) :
    stableSort le (l.map f) = (stableSort le l).map f := by
  rw [stableSort_map]
  rw [stableSort_congr l h]

/-- Rank assignment over two pointwise rank-agreeing transformations. -/
theorem rank_assign_map₂ (f g : Bid → Bid) (d : List Bid) (n : Nat)
    (h : ∀ x ∈ d, ∀ i : Nat,
      ({ f x with rank := some i } : Bid) = { g x with rank := some i }) :
    (List.enumFrom n (d.map f)).map (fun p => ({ p.2 with rank := some p.1 } : Bid)) =
    (List.enumFrom n (d.map g)).map (fun p => ({ p.2 with rank := some p.1 } : Bid)) := by
  rw [enumFrom_map, enumFrom_map, List.map_map, List.map_map]
  exact List.map_congr_left (fun p hp => h p.2 (snd_mem_of_mem_enumFrom hp) p.1)

/-- Running the branch computation again over the already-mutated bid
objects reproduces exactly the same mutated objects. -/
theorem rankUpdates_stable (etype : EvaluationType) (tw fw : ℚ)
    (evals : List Evaluation) (s : St) (tender_id : Nat)
    (hids : (s.bids.map Bid.id).Nodup) :
    rankUpdates etype tw fw ((scoredBids evals s tender_id).map
      (applyRanked (rankedBids etype tw fw evals s tender_id))) =
    rankedBids etype tw fw evals s tender_id := by
  cases etype with
  | L2 => rfl
  | T1 =>
    rw [rankUpdates_T1_def]
    have hsort : stableSort (fun a b => decide (keyT1 b ≤ keyT1 a))
        ((scoredBids evals s tender_id).map
          (applyRanked (rankedBids .T1 tw fw evals s tender_id))) =
        (stableSort (fun a b => decide (keyT1 b ≤ keyT1 a))
          (scoredBids evals s tender_id)).map
          (applyRanked (rankedBids .T1 tw fw evals s tender_id)) := by
      refine stableSort_map_congr _ _ _ (fun x hx y hy => ?_)
      rw [keyT1_congr (applyRanked_keeps .T1 tw fw evals s tender_id hids hx).2.2.2.2.1,
        keyT1_congr (applyRanked_keeps .T1 tw fw evals s tender_id hids hy).2.2.2.2.1]
    rw [hsort]
    have hcoll : ∀ x ∈ stableSort (fun a b => decide (keyT1 b ≤ keyT1 a))
        (scoredBids evals s tender_id), ∀ i : Nat,
        ({ applyRanked (rankedBids .T1 tw fw evals s tender_id) x with
            rank := some i } : Bid) = { x with rank := some i } := by
      intro x hx i
      rcases applyRanked_T1 tw fw hids ((mem_stableSort _ _ _).mp hx) with ⟨r, hr⟩
      rw [hr]
    have hmain := rank_assign_map₂
      (applyRanked (rankedBids .T1 tw fw evals s tender_id)) (fun x => x)
      (stableSort (fun a b => decide (keyT1 b ≤ keyT1 a)) (scoredBids evals s tender_id))
      1 (fun x hx i => hcoll x hx i)
    rw [List.map_id'] at hmain
    rw [hmain]
    rfl
  | L1 =>
    rw [rankUpdates_L1_def]
    have hfilt : ((scoredBids evals s tender_id).map
        (applyRanked (rankedBids .L1 tw fw evals s tender_id))).filter isCandidate =
        ((scoredBids evals s tender_id).filter isCandidate).map
          (applyRanked (rankedBids .L1 tw fw evals s tender_id)) := by
      rw [List.filter_map]
      congr 1
      refine List.filter_congr (fun x hx => ?_)
      exact isCandidate_congr
        (applyRanked_keeps .L1 tw fw evals s tender_id hids hx).2.2.2.2.2
        (applyRanked_keeps .L1 tw fw evals s tender_id hids hx).2.2.2.1
    rw [hfilt]
    have hsort : stableSort (fun a b => decide (keyL1 a ≤ keyL1 b))
        (((scoredBids evals s tender_id).filter isCandidate).map
          (applyRanked (rankedBids .L1 tw fw evals s tender_id))) =
        (stableSort (fun a b => decide (keyL1 a ≤ keyL1 b))
          ((scoredBids evals s tender_id).filter isCandidate)).map
          (applyRanked (rankedBids .L1 tw fw evals s tender_id)) := by
      refine stableSort_map_congr _ _ _ (fun x hx y hy => ?_)
      rw [keyL1_congr (applyRanked_keeps .L1 tw fw evals s tender_id hids
          (List.mem_of_mem_filter hx)).2.2.2.1,
        keyL1_congr (applyRanked_keeps .L1 tw fw evals s tender_id hids
          (List.mem_of_mem_filter hy)).2.2.2.1]
    rw [hsort]
    have hcoll : ∀ x ∈ stableSort (fun a b => decide (keyL1 a ≤ keyL1 b))
        ((scoredBids evals s tender_id).filter isCandidate), ∀ i : Nat,
        ({ applyRanked (rankedBids .L1 tw fw evals s tender_id) x with
            rank := some i } : Bid) = { x with rank := some i } := by
      intro x hx i
      have hx2 := (mem_stableSort _ _ _).mp hx
      rcases (applyRanked_L1 tw fw hids (List.mem_of_mem_filter hx2)).2
        (List.of_mem_filter hx2) with ⟨r, hr⟩
      rw [hr]
    have hmain := rank_assign_map₂
      (applyRanked (rankedBids .L1 tw fw evals s tender_id)) (fun x => x)
      (stableSort (fun a b => decide (keyL1 a ≤ keyL1 b))
        ((scoredBids evals s tender_id).filter isCandidate))
      1 (fun x hx i => hcoll x hx i)
    rw [List.map_id'] at hmain
    rw [hmain]
    rfl
  | QCBS =>
    rw [rankUpdates_QCBS_def]
    have hfilt : ((scoredBids evals s tender_id).map
        (applyRanked (rankedBids .QCBS tw fw evals s tender_id))).filter isCandidate =
        ((scoredBids evals s tender_id).filter isCandidate).map
          (applyRanked (rankedBids .QCBS tw fw evals s tender_id)) := by
      rw [List.filter_map]
      congr 1
      refine List.filter_congr (fun x hx => ?_)
      exact isCandidate_congr
        (applyRanked_keeps .QCBS tw fw evals s tender_id hids hx).2.2.2.2.2
        (applyRanked_keeps .QCBS tw fw evals s tender_id hids hx).2.2.2.1
    rw [hfilt]
    by_cases hemp : ((scoredBids evals s tender_id).filter isCandidate).isEmpty = true
    · rw [List.isEmpty_iff.mp hemp]
      unfold rankedBids
      rw [rankUpdates_QCBS_def, if_pos hemp]
      rfl
    · have hmapemp : (((scoredBids evals s tender_id).filter isCandidate).map
          (applyRanked (rankedBids .QCBS tw fw evals s tender_id))).isEmpty = true ↔
          ((scoredBids evals s tender_id).filter isCandidate).isEmpty = true := by
        cases (scoredBids evals s tender_id).filter isCandidate with
        | nil => exact Iff.rfl
        | cons c cs => simp [List.isEmpty]
      rw [if_neg (fun hc => hemp (hmapemp.mp hc))]
      have hmn : minAmount (((scoredBids evals s tender_id).filter isCandidate).map
          (applyRanked (rankedBids .QCBS tw fw evals s tender_id))) =
          minAmount ((scoredBids evals s tender_id).filter isCandidate) := by
        refine minAmount_map_congr _ _ (fun x hx => ?_)
        exact keyL1_congr (applyRanked_keeps .QCBS tw fw evals s tender_id hids
          (List.mem_of_mem_filter hx)).2.2.2.1
      rw [hmn]
      have hqfix : ∀ x ∈ (scoredBids evals s tender_id).filter isCandidate,
          qcbsScore tw fw (minAmount ((scoredBids evals s tender_id).filter isCandidate))
            (applyRanked (rankedBids .QCBS tw fw evals s tender_id) x) =
          applyRanked (rankedBids .QCBS tw fw evals s tender_id) x := by
        intro x hx
        rcases (applyRanked_QCBS tw fw hids (List.mem_of_mem_filter hx)).2
          (List.of_mem_filter hx) with ⟨r, hr⟩
        rw [hr]
        exact Bid.withScores_self rfl rfl
      have hscored2 : (((scoredBids evals s tender_id).filter isCandidate).map
          (applyRanked (rankedBids .QCBS tw fw evals s tender_id))).map
            (qcbsScore tw fw (minAmount ((scoredBids evals s tender_id).filter
              isCandidate))) =
          ((scoredBids evals s tender_id).filter isCandidate).map
            (applyRanked (rankedBids .QCBS tw fw evals s tender_id)) := by
        rw [List.map_map]
        exact List.map_congr_left (fun x hx => hqfix x hx)
      rw [hscored2]
      have hsort : stableSort (fun a b => decide (keyQCBS b ≤ keyQCBS a))
          (((scoredBids evals s tender_id).filter isCandidate).map
            (applyRanked (rankedBids .QCBS tw fw evals s tender_id))) =
          (stableSort (fun a b => decide (keyQCBS (qcbsScore tw fw
              (minAmount ((scoredBids evals s tender_id).filter isCandidate)) b) ≤
            keyQCBS (qcbsScore tw fw
              (minAmount ((scoredBids evals s tender_id).filter isCandidate)) a)))
            ((scoredBids evals s tender_id).filter isCandidate)).map
            (applyRanked (rankedBids .QCBS tw fw evals s tender_id)) := by
        rw [stableSort_map]
        congr 1
        refine stableSort_congr _ (fun x hx y hy => ?_)
        rcases (applyRanked_QCBS tw fw hids (List.mem_of_mem_filter hx)).2
          (List.of_mem_filter hx) with ⟨rx, hrx⟩
        rcases (applyRanked_QCBS tw fw hids (List.mem_of_mem_filter hy)).2
          (List.of_mem_filter hy) with ⟨ry, hry⟩
        rw [hrx, hry]
        rfl
      rw [hsort]
      have hsortq : stableSort (fun a b => decide (keyQCBS b ≤ keyQCBS a))
          (((scoredBids evals s tender_id).filter isCandidate).map
            (qcbsScore tw fw (minAmount ((scoredBids evals s tender_id).filter
              isCandidate)))) =
          (stableSort (fun a b => decide (keyQCBS (qcbsScore tw fw
              (minAmount ((scoredBids evals s tender_id).filter isCandidate)) b) ≤
            keyQCBS (qcbsScore tw fw
              (minAmount ((scoredBids evals s tender_id).filter isCandidate)) a)))
            ((scoredBids evals s tender_id).filter isCandidate)).map
            (qcbsScore tw fw (minAmount ((scoredBids evals s tender_id).filter
              isCandidate))) := stableSort_map _ _ _
      have hcoll : ∀ x ∈ stableSort (fun a b => decide (keyQCBS (qcbsScore tw fw
            (minAmount ((scoredBids evals s tender_id).filter isCandidate)) b) ≤
          keyQCBS (qcbsScore tw fw
            (minAmount ((scoredBids evals s tender_id).filter isCandidate)) a)))
          ((scoredBids evals s tender_id).filter isCandidate), ∀ i : Nat,
          ({ applyRanked (rankedBids .QCBS tw fw evals s tender_id) x with
              rank := some i } : Bid) =
          { qcbsScore tw fw (minAmount ((scoredBids evals s tender_id).filter
              isCandidate)) x with rank := some i } := by
        intro x hx i
        have hx2 := (mem_stableSort _ _ _).mp hx
        rcases (applyRanked_QCBS tw fw hids (List.mem_of_mem_filter hx2)).2
          (List.of_mem_filter hx2) with ⟨r, hr⟩
        rw [hr]
      have hmain := rank_assign_map₂
        (applyRanked (rankedBids .QCBS tw fw evals s tender_id))
        (qcbsScore tw fw (minAmount ((scoredBids evals s tender_id).filter isCandidate)))
        (stableSort (fun a b => decide (keyQCBS (qcbsScore tw fw
            (minAmount ((scoredBids evals s tender_id).filter isCandidate)) b) ≤
          keyQCBS (qcbsScore tw fw
            (minAmount ((scoredBids evals s tender_id).filter isCandidate)) a)))
          ((scoredBids evals s tender_id).filter isCandidate))
        1 (fun x hx i => hcoll x hx i)
      rw [hmain, ← hsortq]
      unfold rankedBids
      rw [rankUpdates_QCBS_def, if_neg hemp]

theorem isEmpty_map {α β : Type} (f : α → β) (l : List α) :
    (l.map f).isEmpty = l.isEmpty := by
  cases l with
  | nil => rfl
  | cons x xs => rfl

theorem isSubmittedOf_scoreBid (tender_id : Nat) (evals : List Evaluation) (b : Bid) :
    isSubmittedOf tender_id (scoreBid evals b) = isSubmittedOf tender_id b := by
  unfold isSubmittedOf
  rw [(scoreBid_untouched evals b).2.1, (scoreBid_untouched evals b).2.2.1]

/-- Inversion of membership in the committed bids table. -/
theorem mem_newBids {etype : EvaluationType} {tw fw : ℚ} {evals : List Evaluation}
    {s : St} {tender_id : Nat} {x : Bid}
    (hx : x ∈ newBidsAfterCalc etype tw fw evals s tender_id) :
    (∃ b ∈ s.bids, isSubmittedOf tender_id b = true ∧
      x = applyRanked (rankedBids etype tw fw evals s tender_id) (scoreBid evals b)) ∨
    (x ∈ s.bids ∧ isSubmittedOf tender_id x = false) := by
  unfold newBidsAfterCalc at hx
  rcases List.mem_map.mp hx with ⟨b, hb, hbe⟩
  by_cases hP : isSubmittedOf tender_id b = true
  · rw [if_pos hP] at hbe
    exact Or.inl ⟨b, hb, hP, hbe.symm⟩
  · rw [if_neg hP] at hbe
    rw [← hbe]
    exact Or.inr ⟨hb, (Bool.not_eq_true _).mp hP⟩

/-- The submitted-bids query after a committed run returns the mutated
versions of exactly the bids the first run processed, in order. -/
theorem submittedBids_after (etype : EvaluationType) (tw fw : ℚ)
    (evals : List Evaluation) (s : St) (tender_id : Nat) :
    submittedBids
      { tenders := s.tenders, bids := newBidsAfterCalc etype tw fw evals s tender_id }
      tender_id =
    (submittedBids s tender_id).map (fun b =>
      applyRanked (rankedBids etype tw fw evals s tender_id) (scoreBid evals b)) := by
  show (newBidsAfterCalc etype tw fw evals s tender_id).filter (isSubmittedOf tender_id) = _
  unfold newBidsAfterCalc
  rw [List.filter_map]
  have hpg : ∀ b ∈ s.bids,
      (isSubmittedOf tender_id ∘ (fun b =>
        if isSubmittedOf tender_id b then
          applyRanked (rankedBids etype tw fw evals s tender_id) (scoreBid evals b)
        else b)) b = isSubmittedOf tender_id b := by
    intro b _
    by_cases hP : isSubmittedOf tender_id b = true
    · show isSubmittedOf tender_id (if isSubmittedOf tender_id b then _ else _) = _
      rw [if_pos hP, hP]
      exact isSubmittedOf_applyRanked etype tw fw evals s tender_id
        (by rw [isSubmittedOf_scoreBid]; exact hP)
    · show isSubmittedOf tender_id (if isSubmittedOf tender_id b then _ else _) = _
      rw [if_neg hP]
  rw [List.filter_congr hpg]
  exact List.map_congr_left (fun b hb => by rw [if_pos (List.of_mem_filter hb)])

/-- Rescoring a mutated submitted bid is a no-op: its technical score and
qualification flag already hold the recomputed values. -/
theorem scoreBid_fix_applyRanked (etype : EvaluationType) (tw fw : ℚ)
    (evals : List Evaluation) (s : St) (tender_id : Nat)
    (hids : (s.bids.map Bid.id).Nodup) {b : Bid}
    (hb : b ∈ submittedBids s tender_id) :
    scoreBid evals
      (applyRanked (rankedBids etype tw fw evals s tender_id) (scoreBid evals b)) =
    applyRanked (rankedBids etype tw fw evals s tender_id) (scoreBid evals b) := by
  have hscored : scoreBid evals b ∈ scoredBids evals s tender_id :=
    List.mem_map_of_mem (scoreBid evals) hb
  obtain ⟨hkid, -, -, -, hkts, hkq⟩ :=
    applyRanked_keeps etype tw fw evals s tender_id hids hscored
  have hid2 : (applyRanked (rankedBids etype tw fw evals s tender_id)
      (scoreBid evals b)).id = b.id := by
    rw [hkid, (scoreBid_untouched evals b).1]
  refine scoreBid_of_fixed evals _ (fun hne => ?_)
  rw [hid2] at hne ⊢
  constructor
  · rw [hkts, scoreBid_of_nonempty hne]
  · rw [hkq, scoreBid_of_nonempty hne]

/-- The score loop of a second run reproduces the committed bid objects. -/
theorem scoredBids_after (etype : EvaluationType) (tw fw : ℚ)
    (evals : List Evaluation) (s : St) (tender_id : Nat)
    (hids : (s.bids.map Bid.id).Nodup) :
    scoredBids evals
      { tenders := s.tenders, bids := newBidsAfterCalc etype tw fw evals s tender_id }
      tender_id =
    (scoredBids evals s tender_id).map
      (applyRanked (rankedBids etype tw fw evals s tender_id)) := by
  show (submittedBids
      { tenders := s.tenders, bids := newBidsAfterCalc etype tw fw evals s tender_id }
      tender_id).map (scoreBid evals) = _
  rw [submittedBids_after]
  show _ = ((submittedBids s tender_id).map (scoreBid evals)).map
    (applyRanked (rankedBids etype tw fw evals s tender_id))
  rw [List.map_map, List.map_map]
  exact List.map_congr_left (fun b hb =>
    scoreBid_fix_applyRanked etype tw fw evals s tender_id hids hb)

/-- C8: re-running the same ranking method on unchanged Evaluation rows is
idempotent — the second run commits exactly the same bids table and returns
exactly the same response (the model carries no timestamps; updated_at is
the only field outside it). -/
theorem ranking_idempotent (etype : EvaluationType) (tw fw : ℚ)
    (evals : List Evaluation) (s : St) (tender_id : Nat) (s2 : St) (res : EvalResult)
    (hids : (s.bids.map Bid.id).Nodup)
    (hok : calculate_evaluation etype tw fw evals s tender_id = Except.ok (s2, res)) :
    calculate_evaluation etype tw fw evals s2 tender_id = Except.ok (s2, res) := by
  obtain ⟨hs2, hres, ⟨t, hf⟩, hne⟩ := calculate_evaluation_ok hok
  subst hs2
  subst hres
  have hrk : rankedBids etype tw fw evals
      { tenders := s.tenders, bids := newBidsAfterCalc etype tw fw evals s tender_id }
      tender_id = rankedBids etype tw fw evals s tender_id := by
    show rankUpdates etype tw fw (scoredBids evals
      { tenders := s.tenders, bids := newBidsAfterCalc etype tw fw evals s tender_id }
      tender_id) = _
    rw [scoredBids_after etype tw fw evals s tender_id hids]
    exact rankUpdates_stable etype tw fw evals s tender_id hids
  have hnew : newBidsAfterCalc etype tw fw evals
      { tenders := s.tenders, bids := newBidsAfterCalc etype tw fw evals s tender_id }
      tender_id = newBidsAfterCalc etype tw fw evals s tender_id := by
    show (newBidsAfterCalc etype tw fw evals s tender_id).map _ =
      newBidsAfterCalc etype tw fw evals s tender_id
    rw [hrk]
    have hid : ∀ x ∈ newBidsAfterCalc etype tw fw evals s tender_id,
        (if isSubmittedOf tender_id x = true then
          applyRanked (rankedBids etype tw fw evals s tender_id) (scoreBid evals x)
        else x) = x := by
      intro x hx
      rcases mem_newBids hx with ⟨b, hb, hP, hxeq⟩ | ⟨hxmem, hPf⟩
      · have hPsub : isSubmittedOf tender_id x = true := by
          rw [hxeq]
          exact isSubmittedOf_applyRanked etype tw fw evals s tender_id
            (by rw [isSubmittedOf_scoreBid]; exact hP)
        rw [if_pos hPsub, hxeq]
        have hbsub : b ∈ submittedBids s tender_id := List.mem_filter.mpr ⟨hb, hP⟩
        rw [scoreBid_fix_applyRanked etype tw fw evals s tender_id hids hbsub]
        exact applyRanked_idem
          (rankedBids_ids_nodup etype tw fw evals s tender_id hids) _
      · rw [if_neg (by rw [hPf]; exact Bool.false_ne_true)]
    rw [List.map_congr_left hid, List.map_id']
  have hqual : ((scoredBids evals
      { tenders := s.tenders, bids := newBidsAfterCalc etype tw fw evals s tender_id }
      tender_id).filter (fun b => decide (b.is_qualified = some true))).length =
      ((scoredBids evals s tender_id).filter
        (fun b => decide (b.is_qualified = some true))).length := by
    rw [scoredBids_after etype tw fw evals s tender_id hids, List.filter_map]
    rw [List.filter_congr (fun x hx => by
      show decide ((applyRanked (rankedBids etype tw fw evals s tender_id)
        x).is_qualified = some true) = decide (x.is_qualified = some true)
      rw [(applyRanked_keeps etype tw fw evals s tender_id hids hx).2.2.2.2.2])]
    rw [List.length_map]
  have hdisq : ((scoredBids evals
      { tenders := s.tenders, bids := newBidsAfterCalc etype tw fw evals s tender_id }
      tender_id).filter (fun b => decide (¬ b.is_qualified = some true))).length =
      ((scoredBids evals s tender_id).filter
        (fun b => decide (¬ b.is_qualified = some true))).length := by
    rw [scoredBids_after etype tw fw evals s tender_id hids, List.filter_map]
    rw [List.filter_congr (fun x hx => by
      show decide (¬ (applyRanked (rankedBids etype tw fw evals s tender_id)
        x).is_qualified = some true) = decide (¬ x.is_qualified = some true)
      rw [(applyRanked_keeps etype tw fw evals s tender_id hids hx).2.2.2.2.2])]
    rw [List.length_map]
  have htot : (submittedBids
      { tenders := s.tenders, bids := newBidsAfterCalc etype tw fw evals s tender_id }
      tender_id).length = (submittedBids s tender_id).length := by
    rw [submittedBids_after, List.length_map]
  have hcres : calcResult etype tw fw evals
      { tenders := s.tenders, bids := newBidsAfterCalc etype tw fw evals s tender_id }
      tender_id = calcResult etype tw fw evals s tender_id := by
    unfold calcResult
    rw [htot, hqual, hdisq, hrk]
  unfold calculate_evaluation
  have hten :
      ({ tenders := s.tenders, bids := newBidsAfterCalc etype tw fw evals s tender_id } :
        St).tenders = s.tenders := rfl
  rw [hten, hf]
  have hne2 : (submittedBids
      { tenders := s.tenders, bids := newBidsAfterCalc etype tw fw evals s tender_id }
      tender_id).isEmpty = false := by
    rw [submittedBids_after, isEmpty_map, hne]
  rw [if_neg (by rw [hne2]; exact Bool.false_ne_true), hnew, hcres]

/-- Witness for C8: the T1 run on fixture C commits fixture C2; re-running
T1 on fixture C2 returns exactly the same state and response. -/
theorem ranking_idempotent_witness :
    (exStC.bids.map Bid.id).Nodup ∧
    calculate_evaluation .T1 (7/10) (3/10) [] exStC 1 = Except.ok (exStC2, exResC) ∧
    calculate_evaluation .T1 (7/10) (3/10) [] exStC2 1 = Except.ok (exStC2, exResC) := by
  refine ⟨by decide, by decide, ?_⟩
  exact ranking_idempotent .T1 (7/10) (3/10) [] exStC 1 exStC2 exResC
    (by decide) (by decide)

end Atems
